import Mathlib

/-!
# Round2 reference implementation: the tools around the library

A shallow embedding of `reference/src/createAfixed/createAfixed.c`,
`reference/src/randombytes.c`, the example programs `reference/src/examples/kem_example.c`
and `encrypt_example.c`, and `speedtest/src/speedtest.c` (with the constants of
`reference/src/api.h`), followed by the properties proved about them.

Conventions of the embedding.

* Machine integers are natural numbers or integers; a reduction `% 2 ^ w` is written
  wherever the C arithmetic is done in a `w`-bit unsigned type and can wrap.
* The deterministic generator `drng` (declared in `drng.h`) is a byte stream
  `Nat → Nat`: the byte at ordinal position `pos`. A call `drng(buf, 2)` hands out the
  bytes at the current position and the one after it and advances the position by two.
* Loops that C does not bound (`do … while`, `while`) take a fuel argument and return
  `none` when the fuel is used up before the loop condition turns false.
* Memory allocation (`malloc`, `checked_malloc`) is taken to succeed, and the text the
  programs print is left out, but for the three size lines of `example_run`.
* The library calls (`crypto_kem_*`, `crypto_encrypt*`, `set_parameters*`) are not among
  the sources: a call is a step of a trace, and what it leaves behind is a parameter.
-/

namespace Round2

/-! ## `createAfixed.c`: data -/

/-- Byte order of the host. `drng` fills the two bytes of the object representation of a
`uint16_t`; the number they denote depends on the byte order. -/
inductive ByteOrder where
  | little
  | big
  deriving DecidableEq, Repr

/-- The `uint16_t` whose object representation is the byte `b0` followed by the
byte `b1`. -/
def load16 (bo : ByteOrder) (b0 b1 : Nat) : Nat :=
  match bo with
  | ByteOrder.little => b0 % 256 + 256 * (b1 % 256)
  | ByteOrder.big => 256 * (b0 % 256) + b1 % 256

/-- The 16-bit chunk number `j` of a drng byte stream that is read two bytes at a time
from position 0: the bytes at positions `2 * j` and `2 * j + 1`. -/
def chunk16 (bo : ByteOrder) (stream : Nat → Nat) (j : Nat) : Nat :=
  load16 bo (stream (2 * j)) (stream (2 * j + 1))

/-- Line 92: `mask_ceil_log2q = (uint16_t) ((1U << ceil_log2(params.q)) - 1)`, as a
function of the value `cl` returned by `ceil_log2(params.q)`. The shift and the
subtraction are 32-bit unsigned, the cast keeps the low 16 bits. (For `cl ≥ 32` C leaves
the shift undefined; the embedding takes the shifted-out value `0` there.) -/
def mask_ceil_log2q (cl : Nat) : Nat :=
  ((2 ^ cl % 2 ^ 32 + (2 ^ 32 - 1)) % 2 ^ 32) % 2 ^ 16

/-- Lines 103-106, the `do … while` loop that fills one entry:
```
do {
    drng((unsigned char *) &A_fixed[i], sizeof (*A_fixed));
    A_fixed[i] &= mask_ceil_log2q;
} while (A_fixed[i] >= params.q);
```
`pos` is the position of the drng stream before the loop; the result is the final value
of `A_fixed[i]` and the position of the stream after the loop. Each unit of fuel pays for
one run of the loop body. -/
def sample_entry (bo : ByteOrder) (stream : Nat → Nat) (mask q : Nat) :
    Nat → Nat → Option (Nat × Nat)
  | 0, _ => none
  | fuel + 1, pos =>
    let a := load16 bo (stream pos) (stream (pos + 1)) &&& mask
    if a ≥ q then sample_entry bo stream mask q fuel (pos + 2) else some (a, pos + 2)

/-- Lines 102-107, the `for` loop over the `n` entries still to be generated, started
with the drng stream at position `pos`. The result lists the entries in index order and
gives the final position of the stream. `fuel` bounds the runs of the inner loop body
for each entry. -/
def generate_loop (bo : ByteOrder) (stream : Nat → Nat) (mask q fuel : Nat) :
    Nat → Nat → Option (List Nat × Nat)
  | 0, pos => some ([], pos)
  | n + 1, pos =>
    match sample_entry bo stream mask q fuel pos with
    | none => none
    | some (a, pos1) =>
      match generate_loop bo stream mask q fuel n pos1 with
      | none => none
      | some (rest, pos2) => some (a :: rest, pos2)

/-- Lines 92-107 of `main`: the mask, `len_a_fixed = d * d` and the generation loop over
a freshly initialised drng stream (position 0). `ceil_log2` is the helper of `misc.h`,
taken as a parameter; `q` and `d` are `params.q` and `params.d`. The product `d * d` is
the mathematical one: the type of `params.d` is declared in `parameters.h`, and the
dimensions are taken to be small enough for `params.d * params.d` not to overflow. -/
def generate_A_fixed (ceil_log2 : Nat → Nat) (bo : ByteOrder) (stream : Nat → Nat)
    (q d fuel : Nat) : Option (List Nat × Nat) :=
  generate_loop bo stream (mask_ceil_log2q (ceil_log2 q)) q fuel (d * d) 0

/-- Modelled from the spec: `ceil_log2` is declared in `misc.h`, which is not among the
sources; the spec calls its value `ceil(log2(q))`, the least `k` with `q ≤ 2 ^ k`. -/
def ceil_log2 (x : Nat) : Nat := Nat.clog 2 x

/-! ## `createAfixed.c`: `main` -/

/-- One row of the table `api_to_internal_parameters` (declared in
`api_to_internal_parameters.h`), its columns named after the `POS_*` indices that `main`
uses. -/
structure ParamRow where
  ss : Nat
  d : Nat
  n : Nat
  h : Nat
  q : Nat
  p_bits : Nat
  t_bits : Nat
  n_bar : Nat
  m_bar : Nat
  B : Nat
  deriving DecidableEq, Repr

/-- The fields of the `parameters` record that `main` reads after `set_parameters`. -/
structure parameters where
  ss_size : Nat
  d : Nat
  q : Nat
  deriving DecidableEq, Repr

/-- What `createAfixed.c` takes from outside the file: the table, the functions it calls
and the byte order of the host.

* `table` is `api_to_internal_parameters`;
* `set_parameters` maps the ten arguments of the call (after their casts) to the record;
* `ceil_log2` is the helper of `misc.h`;
* `randombytes n` is the `n` bytes the system randomness source delivers for the seed;
* `drng seed` is the byte stream of the generator after `init_drng(seed, …)`. -/
structure Env where
  table : List ParamRow
  set_parameters : ParamRow → parameters
  ceil_log2 : Nat → Nat
  randombytes : Nat → List Nat
  drng : List Nat → Nat → Nat
  byte_order : ByteOrder

/-- The calls of `main` that the trace records. -/
inductive Call where
  | set_parameters (args : ParamRow)
  | randombytes (xlen : Nat)
  | init_drng (seed : List Nat)
  | drng (len : Nat)
  deriving DecidableEq, Repr

/-- How a run of `main` ends. `calls` is the trace of recorded calls made up to that
point, in order. -/
inductive Outcome where
  /-- The call `exit(EXIT_FAILURE)`. -/
  | exit_failure (calls : List Call)
  /-- The run read `api_to_internal_parameters[api_set_number]` with `api_set_number`
  not below the number of rows. -/
  | out_of_bounds
  /-- The generation loop was still running when the fuel was used up. -/
  | running (calls : List Call)
  /-- The final `return 0`, after the seed and `A_fixed` were printed. -/
  | returned (calls : List Call) (seed : List Nat) (A_fixed : List Nat)
  deriving DecidableEq, Repr

/-- Line 67: `(unsigned long) strtol(argv[1], NULL, 10)`, the conversion of the `long`
value `v` to `unsigned long` (64 bits wide): negative values wrap around. -/
def to_unsigned_long (v : Int) : Nat := (v % 2 ^ 64).toNat

/-- Lines 64-68: `api_set_number`, from the value `strtol` returns for `argv[1]` when
there is such an argument (`arg = some v`), and 0 otherwise. -/
def api_set_number (arg : Option Int) : Nat :=
  match arg with
  | none => 0
  | some v => to_unsigned_long v

/-- Lines 81-91: the arguments of the call of `set_parameters`, with the `(uint8_t)`
casts of the `POS_SS`, `POS_P_BITS`, `POS_T_BITS` and `POS_B` columns. -/
def set_parameters_args (row : ParamRow) : ParamRow :=
  { row with ss := row.ss % 256, p_bits := row.p_bits % 256,
             t_bits := row.t_bits % 256, B := row.B % 256 }

/-- The function `main` of `createAfixed.c`, lines 56-133, without the text it prints.
`sizeof (api_to_internal_parameters) / sizeof (api_to_internal_parameters[0])` is the
number of rows, `env.table.length`. -/
def createAfixed_main (env : Env) (arg : Option Int) (fuel : Nat) : Outcome :=
  let v := api_set_number arg
  if v > env.table.length then Outcome.exit_failure []
  else
    match env.table[v]? with
    | none => Outcome.out_of_bounds
    | some row =>
      if row.n ≠ 1 then Outcome.exit_failure []
      else
        let params := env.set_parameters (set_parameters_args row)
        let seed := env.randombytes params.ss_size
        let setup := [Call.set_parameters (set_parameters_args row),
                      Call.randombytes params.ss_size, Call.init_drng seed]
        match generate_A_fixed env.ceil_log2 env.byte_order (env.drng seed)
            params.q params.d fuel with
        | none => Outcome.running setup
        | some (A_fixed, pos) =>
          Outcome.returned (setup ++ List.replicate (pos / 2) (Call.drng 2)) seed A_fixed

/-! ## `randombytes.c` -/

/-- Line 54: `#define CHUNK_SIZE 1048576`. -/
def CHUNK_SIZE : Nat := 1048576

/-- One call of `read`, as `randombytes` issued it: the descriptor, the offset of the
pointer `x` from the start of the caller's buffer, the value of `xlen` at the call, the
byte count asked for, and the value `read` returned. -/
structure ReadCall where
  fd : Int
  off : Nat
  remaining : Nat
  count : Nat
  ret : Int
  deriving DecidableEq, Repr

/-- The operating system as `randombytes` sees it: `open k` is what the `k`-th call of
`open("/dev/urandom", O_RDONLY)` of the process returns, `read k fd count` what the
`k`-th call of `read` returns when it is asked for `count` bytes from `fd`. -/
structure Sys where
  open_ : Nat → Int
  read : Nat → Int → Nat → Int

/-- The process-wide state: the static variable `urandom` (line 59) and the calls of
`open` and `read` made so far. -/
structure World where
  urandom : Int
  opens : List Int
  reads : List ReadCall
  deriving DecidableEq, Repr

/-- Line 59: `static int urandom = -1;`, before any call. -/
def World.init : World := { urandom := -1, opens := [], reads := [] }

/-- Lines 69-72:
```
while (urandom == -1) {
    urandom = open("/dev/urandom", O_RDONLY);
    if (urandom == -1) sleep(1);
}
```
-/
def open_loop (os : Sys) : Nat → World → Option World
  | 0, w => if w.urandom = -1 then none else some w
  | fuel + 1, w =>
    if w.urandom = -1 then
      let r := os.open_ w.opens.length
      open_loop os fuel { w with urandom := r, opens := w.opens ++ [r] }
    else some w

/-- The third argument of `read` on line 76:
`(size_t) (xlen < CHUNK_SIZE ? xlen : CHUNK_SIZE)`. -/
def read_count (xlen : Nat) : Nat := if xlen < CHUNK_SIZE then xlen else CHUNK_SIZE

/-- Lines 75-84:
```
while (xlen > 0) {
    s = read(urandom, x, (size_t) (xlen < CHUNK_SIZE ? xlen : CHUNK_SIZE));
    if (s >= 0) {
        x += s;
        xlen -= (unsigned long long) s;
    }
}
```
`x` is the offset of the pointer from the start of the buffer; `xlen` is an
`unsigned long long`, so the subtraction is modulo `2 ^ 64`. The result is the world with
the final values of `x` and `xlen`. -/
def read_loop (os : Sys) : Nat → World → Nat → Nat → Option (World × Nat × Nat)
  | 0, w, x, xlen => if xlen > 0 then none else some (w, x, xlen)
  | fuel + 1, w, x, xlen =>
    if xlen > 0 then
      let s := os.read w.reads.length w.urandom (read_count xlen)
      let w1 := { w with reads := w.reads ++ [ReadCall.mk w.urandom x xlen (read_count xlen) s] }
      if s ≥ 0 then
        read_loop os fuel w1 (x + s.toNat) ((xlen + 2 ^ 64 - s.toNat % 2 ^ 64) % 2 ^ 64)
      else read_loop os fuel w1 x xlen
    else some (w, x, xlen)

/-- What a call of `randombytes` leaves behind: its return value, the world, and the
final values of its parameters `x` (as an offset) and `xlen`. -/
structure RandResult where
  ret : Int
  world : World
  x : Nat
  xlen : Nat
  deriving DecidableEq, Repr

/-- The function `randombytes(x, xlen)`, lines 65-86, called in world `w`. `fuel` bounds
the runs of each of the two loops. -/
def randombytes (os : Sys) (fuel : Nat) (w : World) (xlen : Nat) : Option RandResult :=
  match open_loop os fuel w with
  | none => none
  | some w1 =>
    match read_loop os fuel w1 0 xlen with
    | none => none
    | some (w2, x, xl) => some { ret := 0, world := w2, x := x, xlen := xl }

/-- The number of times the calls of `reads` stored a byte at offset `o` of the buffer:
a call that returned `s ≥ 0` stored `s` bytes at the offsets `off, …, off + s - 1`. -/
def write_count (reads : List ReadCall) (o : Nat) : Nat :=
  (reads.filter (fun e => decide (0 ≤ e.ret ∧ e.off ≤ o ∧ o < e.off + e.ret.toNat))).length

/-- The sum of the byte counts returned by the successful calls of `reads`. -/
def bytes_read (reads : List ReadCall) : Nat :=
  (reads.map (fun e => if 0 ≤ e.ret then e.ret.toNat else 0)).sum

/-- A drng byte stream whose first 16-bit chunk is `c`: positions 0 and 1 hold the two
bytes of the object representation of the `uint16_t` `c` in the byte order of the host
(the later positions repeat the second byte). -/
def chunk_stream (bo : ByteOrder) (c : Nat) (pos : Nat) : Nat :=
  match bo with
  | ByteOrder.little => if pos = 0 then c % 256 else c / 256 % 256
  | ByteOrder.big => if pos = 0 then c / 256 % 256 else c % 256

/-- The index of the first 16-bit chunk drawn for entry `i`, when drawing starts at
chunk `s` and `p k` is the index of the chunk accepted for entry `k`: chunk `s` for
entry 0, and the chunk after the one accepted for entry `i - 1` otherwise. -/
def first_chunk (s : Nat) (p : Nat → Nat) (i : Nat) : Nat :=
  if i = 0 then s else p (i - 1) + 1

/-- A sequential series of calls `randombytes(x, xlen)`, one for each element of the
list, each started in the world the previous call left. The result is the final world, or
`none` when one of the calls does not return within the fuel. -/
def randombytes_calls (os : Sys) (fuel : Nat) : World → List Nat → Option World
  | w, [] => some w
  | w, xlen :: rest =>
    match randombytes os fuel w xlen with
    | none => none
    | some r => randombytes_calls os fuel r.world rest

/-! ## Integer conversions used by the example programs and the speed test -/

/-- The cast `(size_t) x` of a non-negative value, `size_t` being 64 bits wide. -/
def to_size_t (x : Nat) : Nat := x % 2 ^ 64

/-- The cast `(unsigned) x` of a non-negative value, `unsigned` being 32 bits wide. -/
def to_unsigned (x : Nat) : Nat := x % 2 ^ 32

/-- The cast `(unsigned int) number` of a `long`. -/
def to_unsigned_int (v : Int) : Nat := (v % 2 ^ 32).toNat

/-- The cast `(int) number` of a `long`, `int` being 32 bits wide. -/
def to_int (v : Int) : Int := (v + 2 ^ 31) % 2 ^ 32 - 2 ^ 31

/-- The cast `(uint8_t) number` of a `long`. -/
def to_uint8 (v : Int) : Nat := (v % 256).toNat

/-- The cast `(long) n` of a `size_t` value, `long` being 64 bits wide. -/
def to_long (n : Nat) : Int := ((n : Int) + 2 ^ 63) % 2 ^ 64 - 2 ^ 63

/-! ## `kem_example.c` and `encrypt_example.c`: `example_run` -/

/-- The fields of the `parameters` record that `example_run` reads. -/
structure ExampleParams where
  n : Nat
  ss_size : Nat
  sk_size : Nat
  pk_size : Nat
  ct_size : Nat
  deriving DecidableEq, Repr

/-- What the example programs take from outside their files.

* `table` is `api_to_internal_parameters`;
* `ROUND2_VARIANT_A` is the value of the macro of that name;
* `set_parameters args` is the status that `set_parameters` reports for the ten
  arguments of the call (0 for success) and the record it leaves in `params`;
* `set_parameters_from_api` is the status that `set_parameters_from_api` returns and the
  record it leaves in `params`. -/
structure ExampleEnv where
  table : List ParamRow
  ROUND2_VARIANT_A : Nat
  set_parameters : ParamRow → Int × ExampleParams
  set_parameters_from_api : Int × ExampleParams

/-- The buffers that `example_run` allocates. -/
inductive Buffer where
  | seed
  | sk
  | pk
  | ct
  | ss_i
  | ss_r
  | m
  | c_prime_prime
  deriving DecidableEq, Repr

/-- The three size lines that `example_run` prints on the API path (lines 115-117 of
`kem_example.c`, 117-119 of `encrypt_example.c`). -/
inductive Printed where
  | CRYPTO_SECRETKEYBYTES
  | CRYPTO_PUBLICKEYBYTES
  | CRYPTO_BYTES
  deriving DecidableEq, Repr

/-- The steps of `example_run` that the trace records. `keypair variant` is the call of
`crypto_kem_keypair_p` or `crypto_encrypt_keypair_p` with `variant` as its last argument,
`enc` the call of `crypto_kem_enc_p` or `crypto_encrypt_p`, `dec` the call of
`crypto_kem_dec_p` or `crypto_encrypt_open_p`. -/
inductive Step where
  | set_parameters_from_api
  | set_parameters (args : ParamRow)
  | print (line : Printed) (value : Nat)
  | checked_malloc (buf : Buffer) (size : Nat)
  | randombytes (xlen : Nat)
  | create_A_fixed
  | keypair (variant : Nat)
  | enc
  | dec
  | free (buf : Buffer)
  deriving DecidableEq, Repr

/-- How the parameter set-up at the start of `example_run` ends. -/
inductive Setup where
  /-- The call `exit(status)`, after the recorded steps. -/
  | exit (status : Int) (steps : List Step)
  /-- The table was read at an index that is not below its number of rows. -/
  | out_of_bounds
  /-- The record `params` is set up; the recorded steps were made. -/
  | ready (steps : List Step) (params : ExampleParams)
  deriving DecidableEq, Repr

/-- How a call of `example_run` ends. -/
inductive RunOutcome where
  /-- The call `exit(status)`, after the recorded steps. -/
  | exit (status : Int) (steps : List Step)
  /-- The table was read at an index that is not below its number of rows. -/
  | out_of_bounds
  /-- The final `return 0`, after the recorded steps. -/
  | returned (steps : List Step)
  deriving DecidableEq, Repr

/-- Lines 109-135 of `kem_example.c`, the same code as lines 110-136 of
`encrypt_example.c`: with a negative `api_set_number` the parameters come from
`set_parameters_from_api`, whose non-zero status leads to `exit(1)`; otherwise they come
from `set_parameters` on the row `api_set_number` of the table, whose status is not
looked at. -/
def example_set_up_parameters (env : ExampleEnv) (api_set_number : Int) : Setup :=
  if api_set_number < 0 then
    if env.set_parameters_from_api.1 ≠ 0 then Setup.exit 1 [Step.set_parameters_from_api]
    else
      let params := env.set_parameters_from_api.2
      Setup.ready
        [Step.set_parameters_from_api,
         Step.print Printed.CRYPTO_SECRETKEYBYTES
           (to_unsigned (params.sk_size + params.ss_size + params.pk_size)),
         Step.print Printed.CRYPTO_PUBLICKEYBYTES (to_unsigned params.pk_size),
         Step.print Printed.CRYPTO_BYTES
           (to_unsigned (params.ct_size + params.ss_size + 16 + 12))]
        params
  else
    match env.table[api_set_number.toNat]? with
    | none => Setup.out_of_bounds
    | some row =>
      Setup.ready [Step.set_parameters (set_parameters_args row)]
        (env.set_parameters (set_parameters_args row)).2

/-- Lines 136-142 of `kem_example.c`, the same code as lines 138-144 of
`encrypt_example.c`: the block `if (fn == 1 && params.n == 1) { … }`. -/
def example_fixed_A (fn : Nat) (params : ExampleParams) : List Step :=
  if fn = 1 ∧ params.n = 1 then
    [Step.checked_malloc Buffer.seed params.ss_size, Step.randombytes params.ss_size,
     Step.create_A_fixed, Step.free Buffer.seed]
  else []

/-- The function `example_run(api_set_number, fn)` of `kem_example.c`, lines 99-181. -/
def kem_example_run (env : ExampleEnv) (api_set_number : Int) (fn : Nat) : RunOutcome :=
  match example_set_up_parameters env api_set_number with
  | Setup.exit status steps => RunOutcome.exit status steps
  | Setup.out_of_bounds => RunOutcome.out_of_bounds
  | Setup.ready steps params =>
    RunOutcome.returned
      (steps ++ example_fixed_A fn params ++
        [Step.checked_malloc Buffer.sk params.sk_size,
         Step.checked_malloc Buffer.pk params.pk_size,
         Step.checked_malloc Buffer.ct params.ct_size,
         Step.checked_malloc Buffer.ss_i params.ss_size,
         Step.checked_malloc Buffer.ss_r params.ss_size,
         Step.keypair env.ROUND2_VARIANT_A,
         Step.enc,
         Step.dec,
         Step.free Buffer.sk, Step.free Buffer.pk, Step.free Buffer.ct,
         Step.free Buffer.ss_i, Step.free Buffer.ss_r])

/-- Line 102 of `encrypt_example.c` (and line 115 of `speedtest.c`): the message. -/
def message : String := "This is the message to be encrypted."

/-- Line 103 of `encrypt_example.c` (and line 116 of `speedtest.c`):
`message_len = strlen(message) + 1`. -/
def message_len : Nat := message.length + 1

/-- Line 148 of `encrypt_example.c`: the size of the secret-key buffer,
`(size_t) (params.sk_size + params.ss_size + params.pk_size)`. -/
def sk_buffer_size (params : ExampleParams) : Nat :=
  to_size_t (params.sk_size + params.ss_size + params.pk_size)

/-- Line 151 of `encrypt_example.c`: the size of the ciphertext buffer for a message of
`len` bytes,
`(size_t) (params.ct_size + params.ss_size + 16 + 12) + (size_t) message_len`. -/
def c_prime_prime_size (params : ExampleParams) (len : Nat) : Nat :=
  (to_size_t (params.ct_size + params.ss_size + 16 + 12) + to_size_t len) % 2 ^ 64

/-- The function `example_run(api_set_number, fn)` of `encrypt_example.c`,
lines 99-181. -/
def encrypt_example_run (env : ExampleEnv) (api_set_number : Int) (fn : Nat) : RunOutcome :=
  match example_set_up_parameters env api_set_number with
  | Setup.exit status steps => RunOutcome.exit status steps
  | Setup.out_of_bounds => RunOutcome.out_of_bounds
  | Setup.ready steps params =>
    RunOutcome.returned
      (steps ++ example_fixed_A fn params ++
        [Step.checked_malloc Buffer.sk (sk_buffer_size params),
         Step.checked_malloc Buffer.pk params.pk_size,
         Step.checked_malloc Buffer.m message_len,
         Step.checked_malloc Buffer.c_prime_prime (c_prime_prime_size params message_len),
         Step.keypair fn,
         Step.enc,
         Step.dec,
         Step.free Buffer.sk, Step.free Buffer.pk, Step.free Buffer.c_prime_prime,
         Step.free Buffer.m])

/-! ## `kem_example.c` and `encrypt_example.c`: `main` -/

/-- What `getopt(argc, argv, "a:f:")` hands to the `switch` of `main`: the option `-a`
or `-f` with the value `strtol` returns for its argument, or anything else. -/
inductive ExampleOpt where
  | a (number : Int)
  | f (number : Int)
  | other
  deriving DecidableEq, Repr

/-- Lines 200-222 of `main`, the same in both example programs: the option loop, started
with the current values of `api_set_number` and `fn`. The result is `none` when the loop
ends in `exit(EXIT_FAILURE)`, and the final `api_set_number` and `fn` otherwise. -/
def example_options (max_api_set_number : Int) :
    List ExampleOpt → Int → Nat → Option (Int × Nat)
  | [], api_set_number, fn => some (api_set_number, fn)
  | ExampleOpt.a number :: rest, _, fn =>
    if number < 0 ∨ number ≥ max_api_set_number then none
    else example_options max_api_set_number rest (to_int number) fn
  | ExampleOpt.f number :: rest, api_set_number, _ =>
    if number < 0 ∨ number > 2 then none
    else example_options max_api_set_number rest api_set_number (to_uint8 number)
  | ExampleOpt.other :: _, _, _ => none

/-- How `main` of an example program ends: in `exit(EXIT_FAILURE)` before `example_run`
is called, or with the call `example_run(api_set_number, fn)`, which ends as `run`
says. -/
inductive MainOutcome where
  | exit_failure
  | example_run (api_set_number : Int) (fn : Nat) (run : RunOutcome)
  deriving DecidableEq, Repr

/-- The function `main` of an example program, lines 193-232, over the function
`run` that is its `example_run`. `opts` are the options `getopt` finds, in order, and
`extra` is the number of command-line arguments left after them (`argc - optind`). -/
def example_main (run : ExampleEnv → Int → Nat → RunOutcome) (env : ExampleEnv)
    (opts : List ExampleOpt) (extra : Nat) : MainOutcome :=
  match example_options (to_long env.table.length) opts 0 (env.ROUND2_VARIANT_A % 256) with
  | none => MainOutcome.exit_failure
  | some (api_set_number, fn) =>
    if extra > 0 then MainOutcome.exit_failure
    else MainOutcome.example_run api_set_number fn (run env api_set_number fn)

/-- The function `main` of `kem_example.c`. -/
def kem_example_main (env : ExampleEnv) (opts : List ExampleOpt) (extra : Nat) :
    MainOutcome :=
  example_main kem_example_run env opts extra

/-- The function `main` of `encrypt_example.c`. -/
def encrypt_example_main (env : ExampleEnv) (opts : List ExampleOpt) (extra : Nat) :
    MainOutcome :=
  example_main encrypt_example_run env opts extra

/-! ## `api.h` and `speedtest.c` -/

/-- Line 44 of `api.h`. -/
def CRYPTO_SECRETKEYBYTES : Nat := 1965

/-- Line 46 of `api.h`. -/
def CRYPTO_PUBLICKEYBYTES : Nat := 10857

/-- Line 48 of `api.h`. -/
def CRYPTO_BYTES : Nat := 48

/-- Line 50 of `api.h`. -/
def CRYPTO_CIPHERTEXTBYTES : Nat := 10904

/-- The status `EXIT_SUCCESS`. -/
def EXIT_SUCCESS : Nat := 0

/-- The status `EXIT_FAILURE`. -/
def EXIT_FAILURE : Nat := 1

/-- Whether `memcmp(a, b, n)` is non-zero: whether the first `n` bytes of `a` and of `b`
differ. -/
def memcmp_differs (a b : List Nat) (n : Nat) : Bool := decide (a.take n ≠ b.take n)

/-- The bytes of `message` with the terminating zero byte: the `message_len` bytes that
`memcmp(message, m, message_len)` reads. -/
def message_bytes : List Nat := message.data.map Char.toNat ++ [0]

/-- The buffers `ss_r` and `ss_i` of `speedtest_kem` after the three calls
`crypto_kem_keypair`, `crypto_kem_enc` and `crypto_kem_dec` of one repeat. -/
structure KemRepeat where
  ss_r : List Nat
  ss_i : List Nat
  deriving DecidableEq, Repr

/-- The variable `mlen` and the buffer `m` of `speedtest_encrypt` after the three calls
`crypto_encrypt_keypair`, `crypto_encrypt` and `crypto_encrypt_open` of one repeat. -/
structure EncryptRepeat where
  mlen : Nat
  m : List Nat
  deriving DecidableEq, Repr

/-- What a test function leaves: the final value of its local `nr_failed` and the value
it returns. -/
structure TestResult where
  nr_failed : Nat
  ret : Nat
  deriving DecidableEq, Repr

/-- Line 86 of `speedtest.c`: the test `memcmp(ss_r, ss_i, CRYPTO_BYTES)` of a repeat. -/
def kem_repeat_failed (rep : KemRepeat) : Bool :=
  memcmp_differs rep.ss_r rep.ss_i CRYPTO_BYTES

/-- Line 141 of `speedtest.c`: the test
`message_len != mlen || memcmp(message, m, message_len)` of a repeat. -/
def encrypt_repeat_failed (rep : EncryptRepeat) : Bool :=
  decide (message_len ≠ rep.mlen) || memcmp_differs message_bytes rep.m message_len

/-- The function `speedtest_kem(nr_test_repeats)`, lines 58-99 of `speedtest.c`, without
the timing and the text it prints. `crypto i` is what the three library calls of repeat
`i` leave in `ss_r` and `ss_i`. The counter `nr_failed` is an `unsigned int`. -/
def speedtest_kem (crypto : Nat → KemRepeat) (nr_test_repeats : Nat) : TestResult :=
  let nr_failed := (List.range nr_test_repeats).foldl
    (fun nr_failed i =>
      if kem_repeat_failed (crypto i) then (nr_failed + 1) % 2 ^ 32 else nr_failed) 0
  { nr_failed := nr_failed, ret := if nr_failed ≠ 0 then 1 else 0 }

/-- The function `speedtest_encrypt(nr_test_repeats)`, lines 107-154 of `speedtest.c`,
without the timing and the text it prints. `crypto i` is what the three library calls of
repeat `i` leave in `mlen` and `m`. -/
def speedtest_encrypt (crypto : Nat → EncryptRepeat) (nr_test_repeats : Nat) : TestResult :=
  let nr_failed := (List.range nr_test_repeats).foldl
    (fun nr_failed i =>
      if encrypt_repeat_failed (crypto i) then (nr_failed + 1) % 2 ^ 32 else nr_failed) 0
  { nr_failed := nr_failed, ret := if nr_failed ≠ 0 then 1 else 0 }

/-- What `getopt(argc, argv, "?r:")` hands to the `switch` of `main` of `speedtest.c`:
the option `-r` with the value `strtol` returns for its argument, or anything else. -/
inductive SpeedOpt where
  | r (number : Int)
  | other
  deriving DecidableEq, Repr

/-- Lines 184-196 of `speedtest.c`: the option loop, started with the current value of
`nr_test_repeats`. The result is `none` when the loop ends in `usage(…)`, which exits
with `EXIT_FAILURE`, and the final `nr_test_repeats` otherwise. -/
def speedtest_options : List SpeedOpt → Nat → Option Nat
  | [], nr_test_repeats => some nr_test_repeats
  | SpeedOpt.r number :: rest, _ =>
    if number ≤ 0 then none else speedtest_options rest (to_unsigned_int number)
  | SpeedOpt.other :: _, _ => none

/-- What `speedtest.c` takes from outside the file: the status that
`set_parameters_from_api` returns, and what the library calls of each repeat leave in
the buffers of the two test functions. -/
structure SpeedEnv where
  set_parameters_from_api : Int
  kem : Nat → KemRepeat
  encrypt : Nat → EncryptRepeat

/-- The steps of `main` of `speedtest.c` that the trace records. -/
inductive SpeedStep where
  | set_parameters_from_api
  | speedtest_kem (nr_test_repeats : Nat)
  | speedtest_encrypt (nr_test_repeats : Nat)
  deriving DecidableEq, Repr

/-- How `main` of `speedtest.c` ends. -/
inductive SpeedOutcome where
  /-- The call `exit(EXIT_FAILURE)`, after the recorded steps. -/
  | exit_failure (steps : List SpeedStep)
  /-- The final `return`, with the status returned, after the recorded steps. -/
  | returned (status : Nat) (steps : List SpeedStep)
  deriving DecidableEq, Repr

/-- The function `main` of `speedtest.c`, lines 176-233, without the text it prints.
`opts` are the options `getopt` finds, in order, and `extra` is the number of
command-line arguments left after them. -/
def speedtest_main (env : SpeedEnv) (opts : List SpeedOpt) (extra : Nat) : SpeedOutcome :=
  match speedtest_options opts 100 with
  | none => SpeedOutcome.exit_failure []
  | some nr_test_repeats =>
    if extra > 0 then SpeedOutcome.exit_failure []
    else if env.set_parameters_from_api ≠ 0 then
      SpeedOutcome.exit_failure [SpeedStep.set_parameters_from_api]
    else if CRYPTO_CIPHERTEXTBYTES ≠ 0 then
      let nr_failed := (0 + (speedtest_kem env.kem nr_test_repeats).ret) % 2 ^ 32
      SpeedOutcome.returned (if nr_failed ≠ 0 then EXIT_FAILURE else EXIT_SUCCESS)
        [SpeedStep.set_parameters_from_api, SpeedStep.speedtest_kem nr_test_repeats]
    else
      let nr_failed := (0 + (speedtest_encrypt env.encrypt nr_test_repeats).ret) % 2 ^ 32
      SpeedOutcome.returned (if nr_failed ≠ 0 then EXIT_FAILURE else EXIT_SUCCESS)
        [SpeedStep.set_parameters_from_api, SpeedStep.speedtest_encrypt nr_test_repeats]

/-! ## Examples used to instantiate the theorems -/

/-- A drng byte stream for the examples: the byte at position `pos` is
`(7 * pos + 3) % 256`. -/
def example_stream (pos : Nat) : Nat := (7 * pos + 3) % 256

/-- A generator for the examples: the stream after `init_drng(seed, …)` has the byte
`(7 * pos + 3 + sum of the seed bytes) % 256` at position `pos`. -/
def example_drng (seed : List Nat) (pos : Nat) : Nat := (7 * pos + 3 + seed.sum) % 256

/-- An environment for the examples: a table of two rows, the first a non-ring set
(`n = 1`, `d = 2`, `q = 3`), the second a ring set (`n = d = 2`); `set_parameters` copies
`ss`, `d` and `q`; the randomness source delivers zero bytes. -/
def example_env : Env where
  table := [ParamRow.mk 16 2 1 1 3 1 1 1 1 1, ParamRow.mk 16 2 2 1 8 2 1 1 1 1]
  set_parameters := fun a => parameters.mk a.ss a.d a.q
  ceil_log2 := ceil_log2
  randombytes := fun n => List.replicate n 0
  drng := example_drng
  byte_order := ByteOrder.little

/-- An operating system for the examples: the first `open` fails and the second returns
descriptor 3; every read with an even ordinal fails, every other one delivers at most two
bytes. -/
def example_sys : Sys where
  open_ := fun k => if k = 0 then -1 else 3
  read := fun k _ n => if k % 2 = 0 then -1 else ((min n 2 : Nat) : Int)

/-- The result of `randombytes(x, 5)` in `example_sys`, called in the initial world. -/
def example_rand_result : RandResult where
  ret := 0
  world :=
    { urandom := 3
      opens := [-1, 3]
      reads := [ReadCall.mk 3 0 5 5 (-1), ReadCall.mk 3 0 5 5 2, ReadCall.mk 3 2 3 3 (-1),
                ReadCall.mk 3 2 3 3 2, ReadCall.mk 3 4 1 1 (-1), ReadCall.mk 3 4 1 1 1] }
  x := 5
  xlen := 0

/-- The world that two calls `randombytes(x, 5)` and `randombytes(x, 3)` leave in
`example_sys`, started in the initial world. -/
def example_world_two_calls : World where
  urandom := 3
  opens := [-1, 3]
  reads := [ReadCall.mk 3 0 5 5 (-1), ReadCall.mk 3 0 5 5 2, ReadCall.mk 3 2 3 3 (-1),
            ReadCall.mk 3 2 3 3 2, ReadCall.mk 3 4 1 1 (-1), ReadCall.mk 3 4 1 1 1,
            ReadCall.mk 3 0 3 3 (-1), ReadCall.mk 3 0 3 3 2, ReadCall.mk 3 2 1 1 (-1),
            ReadCall.mk 3 2 1 1 1]

/-- An environment of the example programs for the examples: the two-row table of
`example_env`, `ROUND2_VARIANT_A = 0`, and parameter construction that succeeds. -/
def example_run_env : ExampleEnv where
  table := [ParamRow.mk 16 2 1 1 3 1 1 1 1 1, ParamRow.mk 16 2 2 1 8 2 1 1 1 1]
  ROUND2_VARIANT_A := 0
  set_parameters := fun a => (0, ExampleParams.mk a.n a.ss 100 200 300)
  set_parameters_from_api := (0, ExampleParams.mk 1 16 100 200 300)

/-- The environment `example_run_env` with parameter construction that reports an error
(status 1), both from the table and from the API macros. -/
def example_error_env : ExampleEnv where
  table := [ParamRow.mk 16 2 1 1 3 1 1 1 1 1, ParamRow.mk 16 2 2 1 8 2 1 1 1 1]
  ROUND2_VARIANT_A := 0
  set_parameters := fun a => (1, ExampleParams.mk a.n a.ss 100 200 300)
  set_parameters_from_api := (1, ExampleParams.mk 1 16 100 200 300)

/-- An environment of the speed test for the examples: parameter construction succeeds,
the KEM round trip fails in repeat 1 only, the PKE round trip never fails. -/
def example_speed_env : SpeedEnv where
  set_parameters_from_api := 0
  kem := fun i => KemRepeat.mk [1, 2, 3] (if i = 1 then [1, 2, 4] else [1, 2, 3])
  encrypt := fun _ => EncryptRepeat.mk message_len message_bytes

/-- The steps of `example_run(0, 1)` of `kem_example.c` in `example_run_env`. -/
def example_kem_steps : List Step :=
  [Step.set_parameters (ParamRow.mk 16 2 1 1 3 1 1 1 1 1),
   Step.checked_malloc Buffer.seed 16, Step.randombytes 16, Step.create_A_fixed,
   Step.free Buffer.seed,
   Step.checked_malloc Buffer.sk 100, Step.checked_malloc Buffer.pk 200,
   Step.checked_malloc Buffer.ct 300, Step.checked_malloc Buffer.ss_i 16,
   Step.checked_malloc Buffer.ss_r 16,
   Step.keypair 0, Step.enc, Step.dec,
   Step.free Buffer.sk, Step.free Buffer.pk, Step.free Buffer.ct, Step.free Buffer.ss_i,
   Step.free Buffer.ss_r]

/-- The steps of `example_run(0, 0)` of `kem_example.c` in `example_error_env`. -/
def example_error_steps : List Step :=
  [Step.set_parameters (ParamRow.mk 16 2 1 1 3 1 1 1 1 1),
   Step.checked_malloc Buffer.sk 100, Step.checked_malloc Buffer.pk 200,
   Step.checked_malloc Buffer.ct 300, Step.checked_malloc Buffer.ss_i 16,
   Step.checked_malloc Buffer.ss_r 16,
   Step.keypair 0, Step.enc, Step.dec,
   Step.free Buffer.sk, Step.free Buffer.pk, Step.free Buffer.ct, Step.free Buffer.ss_i,
   Step.free Buffer.ss_r]

/-- The record that `set_parameters_from_api` leaves in `example_run_env`. -/
def example_api_params : ExampleParams := ExampleParams.mk 1 16 100 200 300

/-- The steps of the parameter set-up of `example_run(-1, fn)` in `example_run_env`. -/
def example_api_steps : List Step :=
  [Step.set_parameters_from_api,
   Step.print Printed.CRYPTO_SECRETKEYBYTES 316,
   Step.print Printed.CRYPTO_PUBLICKEYBYTES 200,
   Step.print Printed.CRYPTO_BYTES 344]

/-! ## The generation loop of `createAfixed` -/

theorem sample_entry_lt (bo : ByteOrder) (stream : Nat → Nat) (mask q : Nat) :
    ∀ (fuel pos a pos1 : Nat),
      sample_entry bo stream mask q fuel pos = some (a, pos1) → a < q := by
  intro fuel
  induction fuel with
  | zero => intro pos a pos1 h; simp [sample_entry] at h
  | succ f ih =>
    intro pos a pos1 h
    simp only [sample_entry] at h
    split at h
    · exact ih _ _ _ h
    · simp only [Option.some.injEq, Prod.mk.injEq] at h
      omega

theorem generate_loop_range (bo : ByteOrder) (stream : Nat → Nat) (mask q fuel : Nat) :
    ∀ (n pos : Nat) (A : List Nat) (pos1 : Nat),
      generate_loop bo stream mask q fuel n pos = some (A, pos1) →
      A.length = n ∧ ∀ e ∈ A, e < q := by
  intro n
  induction n with
  | zero =>
    intro pos A pos1 h
    simp only [generate_loop, Option.some.injEq, Prod.mk.injEq] at h
    simp [← h.1]
  | succ n ih =>
    intro pos A pos1 h
    simp only [generate_loop] at h
    cases hs : sample_entry bo stream mask q fuel pos with
    | none => simp [hs] at h
    | some r =>
      obtain ⟨a, p1⟩ := r
      simp only [hs] at h
      cases hg : generate_loop bo stream mask q fuel n p1 with
      | none => simp [hg] at h
      | some r2 =>
        obtain ⟨rest, p2⟩ := r2
        simp only [hg, Option.some.injEq, Prod.mk.injEq] at h
        obtain ⟨hA, -⟩ := h
        obtain ⟨hlen, hall⟩ := ih _ _ _ hg
        subst hA
        refine ⟨by simp [hlen], ?_⟩
        intro e he
        rcases List.mem_cons.mp he with rfl | he
        · exact sample_entry_lt _ _ _ _ _ _ _ _ hs
        · exact hall e he

/-- C3. Range invariant of the generated matrix: whatever the drng byte stream, the
byte order, the helper `ceil_log2`, the modulus `q` and the dimension `d`, when the
generation loop of `createAfixed` terminates (returns within some fuel) `A_fixed` has
exactly `d * d` entries and every entry `e` satisfies `0 ≤ e < q`. -/
theorem A_fixed_range (cl : Nat → Nat) (bo : ByteOrder) (stream : Nat → Nat)
    (q d fuel : Nat) (A : List Nat) (pos : Nat)
    (h : generate_A_fixed cl bo stream q d fuel = some (A, pos)) :
    A.length = d * d ∧ ∀ e ∈ A, 0 ≤ e ∧ e < q := by
  obtain ⟨hlen, hall⟩ := generate_loop_range _ _ _ _ _ _ _ _ _ h
  exact ⟨hlen, fun e he => ⟨Nat.zero_le e, hall e he⟩⟩

theorem A_fixed_range_witness :
    generate_A_fixed ceil_log2 ByteOrder.little example_stream 3 2 2
        = some ([1, 1, 1, 1], 16) ∧
      ([1, 1, 1, 1].length = 2 * 2 ∧ ∀ e ∈ [1, 1, 1, 1], 0 ≤ e ∧ e < 3) :=
  have h : generate_A_fixed ceil_log2 ByteOrder.little example_stream 3 2 2
      = some ([1, 1, 1, 1], 16) := by
    rw [generate_A_fixed, show ceil_log2 3 = 2 by simp [ceil_log2, Nat.clog]]
    decide
  ⟨h, A_fixed_range _ _ _ _ _ _ _ _ h⟩

theorem sample_entry_first_accept (bo : ByteOrder) (stream : Nat → Nat) (mask q : Nat) :
    ∀ (fuel s a pos1 : Nat),
      sample_entry bo stream mask q fuel (2 * s) = some (a, pos1) →
      ∃ t, s ≤ t ∧ pos1 = 2 * (t + 1) ∧ a = chunk16 bo stream t &&& mask ∧ a < q ∧
        ∀ j, s ≤ j → j < t → q ≤ chunk16 bo stream j &&& mask := by
  intro fuel
  induction fuel with
  | zero => intro s a pos1 h; simp [sample_entry] at h
  | succ f ih =>
    intro s a pos1 h
    simp only [sample_entry] at h
    split at h
    · next hge =>
      obtain ⟨t, hst, hpos, ha, hlt, hrej⟩ := ih (s + 1) a pos1 (by rw [Nat.mul_add]; exact h)
      refine ⟨t, by omega, hpos, ha, hlt, ?_⟩
      intro j hsj hjt
      rcases Nat.eq_or_lt_of_le hsj with rfl | hlt2
      · exact hge
      · exact hrej j hlt2 hjt
    · next hlt =>
      simp only [Option.some.injEq, Prod.mk.injEq] at h
      refine ⟨s, le_refl s, by omega, h.1.symm, by omega, ?_⟩
      intro j hsj hjt
      omega

theorem generate_loop_first_accept (bo : ByteOrder) (stream : Nat → Nat)
    (mask q fuel : Nat) :
    ∀ (n s : Nat) (A : List Nat) (pos1 : Nat),
      generate_loop bo stream mask q fuel n (2 * s) = some (A, pos1) →
      ∃ p : Nat → Nat,
        (∀ i, i < n →
          first_chunk s p i ≤ p i ∧
          A[i]? = some (chunk16 bo stream (p i) &&& mask) ∧
          chunk16 bo stream (p i) &&& mask < q ∧
          ∀ j, first_chunk s p i ≤ j → j < p i → q ≤ chunk16 bo stream j &&& mask) ∧
        pos1 = 2 * first_chunk s p n := by
  intro n
  induction n with
  | zero =>
    intro s A pos1 h
    simp only [generate_loop, Option.some.injEq, Prod.mk.injEq] at h
    exact ⟨fun _ => 0, fun i hi => absurd hi (Nat.not_lt_zero i), by simp [first_chunk, h.2]⟩
  | succ n ih =>
    intro s A pos1 h
    simp only [generate_loop] at h
    cases hs : sample_entry bo stream mask q fuel (2 * s) with
    | none => simp [hs] at h
    | some r =>
      obtain ⟨a, p1⟩ := r
      simp only [hs] at h
      obtain ⟨t, hst, hp1, ha, hlt, hrej⟩ := sample_entry_first_accept _ _ _ _ _ _ _ _ hs
      subst hp1
      cases hg : generate_loop bo stream mask q fuel n (2 * (t + 1)) with
      | none => simp [hg] at h
      | some r2 =>
        obtain ⟨rest, p2⟩ := r2
        simp only [hg, Option.some.injEq, Prod.mk.injEq] at h
        obtain ⟨hA, hpos⟩ := h
        obtain ⟨p, hp, hfin⟩ := ih _ _ _ hg
        subst hA hpos
        refine ⟨fun i => if i = 0 then t else p (i - 1), ?_, ?_⟩
        · intro i hi
          cases i with
          | zero =>
            refine ⟨by simpa [first_chunk] using hst, by simp [ha], by simpa [← ha] using hlt, ?_⟩
            intro j hj1 hj2
            exact hrej j (by simpa [first_chunk] using hj1) (by simpa using hj2)
          | succ k =>
            have hk : first_chunk s (fun i => if i = 0 then t else p (i - 1)) (k + 1)
                = first_chunk (t + 1) p k := by
              cases k <;> simp [first_chunk]
            obtain ⟨h1, h2, h3, h4⟩ := hp k (by omega)
            rw [hk]
            refine ⟨by simpa using h1, by simpa using h2, by simpa using h3, ?_⟩
            intro j hj1 hj2
            exact h4 j hj1 (by simpa using hj2)
        · rw [hfin]
          cases n <;> simp [first_chunk]

theorem chunk16_lt (bo : ByteOrder) (stream : Nat → Nat) (j : Nat) :
    chunk16 bo stream j < 2 ^ 16 := by
  unfold chunk16 load16
  cases bo <;> simp only <;> omega

theorem mask_ceil_log2q_of_le (k : Nat) (hk : k ≤ 16) : mask_ceil_log2q k = 2 ^ k - 1 := by
  have h1 : 2 ^ k ≤ 2 ^ 16 := Nat.pow_le_pow_right (by decide) hk
  have h2 : 0 < 2 ^ k := by positivity
  unfold mask_ceil_log2q
  norm_num at h1 ⊢
  omega

theorem mask_ceil_log2q_of_gt (k : Nat) (hk : 16 < k) : mask_ceil_log2q k = 2 ^ 16 - 1 := by
  unfold mask_ceil_log2q
  rcases Nat.lt_or_ge k 32 with h | h
  · obtain ⟨m, rfl⟩ : ∃ m, k = 16 + m := ⟨k - 16, by omega⟩
    have h1 : 2 ^ m < 2 ^ 16 := Nat.pow_lt_pow_right (by decide) (by omega)
    have h2 : 0 < 2 ^ m := by positivity
    rw [pow_add]
    norm_num at h1 ⊢
    omega
  · obtain ⟨m, rfl⟩ : ∃ m, k = 32 + m := ⟨k - 32, by omega⟩
    rw [pow_add]
    norm_num

theorem and_mask_ceil_log2q (c k : Nat) (hc : c < 2 ^ 16) :
    c &&& mask_ceil_log2q k = c &&& (2 ^ k - 1) := by
  rcases Nat.lt_or_ge 16 k with h | h
  · rw [mask_ceil_log2q_of_gt k h, Nat.and_pow_two_sub_one_eq_mod,
      Nat.and_pow_two_sub_one_eq_mod, Nat.mod_eq_of_lt hc, Nat.mod_eq_of_lt]
    exact lt_trans hc (Nat.pow_lt_pow_right (by decide) h)
  · rw [mask_ceil_log2q_of_le k h]

theorem chunk16_and_mask (bo : ByteOrder) (stream : Nat → Nat) (j k : Nat) :
    chunk16 bo stream j &&& mask_ceil_log2q k = chunk16 bo stream j &&& (2 ^ k - 1) :=
  and_mask_ceil_log2q _ _ (chunk16_lt bo stream j)

/-- C4. Rejection sampling as specified: when the generation loop of `createAfixed`
returns `A_fixed`, there are chunk indices `p 0 < p 1 < …` of the drng stream (read as
consecutive 16-bit chunks from the start) such that for every entry `i < d * d` the
chunks drawn for it are `first_chunk 0 p i, …, p i` (those right after the chunk
accepted for entry `i - 1`, or from chunk 0 for entry 0), entry `i` is chunk `p i`
ANDed with `2 ^ ceil_log2(q) - 1`, that masked value is `< q`, and every earlier chunk
drawn for entry `i` had a masked value `≥ q`; the stream ends right after the chunk
accepted for the last entry, so no chunk is skipped or used twice. -/
theorem A_fixed_first_accept (cl : Nat → Nat) (bo : ByteOrder) (stream : Nat → Nat)
    (q d fuel : Nat) (A : List Nat) (pos : Nat)
    (h : generate_A_fixed cl bo stream q d fuel = some (A, pos)) :
    ∃ p : Nat → Nat,
      (∀ i, i < d * d →
        first_chunk 0 p i ≤ p i ∧
        A[i]? = some (chunk16 bo stream (p i) &&& (2 ^ cl q - 1)) ∧
        chunk16 bo stream (p i) &&& (2 ^ cl q - 1) < q ∧
        ∀ j, first_chunk 0 p i ≤ j → j < p i →
          q ≤ chunk16 bo stream j &&& (2 ^ cl q - 1)) ∧
      pos = 2 * first_chunk 0 p (d * d) := by
  obtain ⟨p, hp, hpos⟩ := generate_loop_first_accept bo stream _ q fuel (d * d) 0 A pos h
  simp only [chunk16_and_mask] at hp
  exact ⟨p, hp, hpos⟩

theorem A_fixed_first_accept_witness :
    generate_A_fixed ceil_log2 ByteOrder.little example_stream 3 2 2
        = some ([1, 1, 1, 1], 16) ∧
      ∃ p : Nat → Nat,
        (∀ i, i < 2 * 2 →
          first_chunk 0 p i ≤ p i ∧
          [1, 1, 1, 1][i]? = some (chunk16 ByteOrder.little example_stream (p i)
            &&& (2 ^ ceil_log2 3 - 1)) ∧
          chunk16 ByteOrder.little example_stream (p i) &&& (2 ^ ceil_log2 3 - 1) < 3 ∧
          ∀ j, first_chunk 0 p i ≤ j → j < p i →
            3 ≤ chunk16 ByteOrder.little example_stream j &&& (2 ^ ceil_log2 3 - 1)) ∧
        16 = 2 * first_chunk 0 p (2 * 2) :=
  have h : generate_A_fixed ceil_log2 ByteOrder.little example_stream 3 2 2
      = some ([1, 1, 1, 1], 16) := by
    rw [generate_A_fixed, show ceil_log2 3 = 2 by simp [ceil_log2, Nat.clog]]
    decide
  ⟨h, A_fixed_first_accept _ _ _ _ _ _ _ _ h⟩

theorem ceil_log2_le_16 (q : Nat) (h : q ≤ 2 ^ 16) : ceil_log2 q ≤ 16 :=
  (Nat.le_pow_iff_clog_le (by decide)).mp h

theorem le_two_pow_ceil_log2 (q : Nat) : q ≤ 2 ^ ceil_log2 q :=
  Nat.le_pow_clog (by decide) q

theorem count_congr_iff (p r : Nat → Prop) [DecidablePred p] [DecidablePred r]
    (h : ∀ c, p c ↔ r c) (n : Nat) : Nat.count p n = Nat.count r n := by
  induction n with
  | zero => simp
  | succ n ih =>
    rw [Nat.count_succ, Nat.count_succ, ih]
    by_cases hp : p n
    · simp [hp, (h n).mp hp]
    · have hr : ¬ r n := fun hr => hp ((h n).mpr hr)
      simp [hp, hr]

theorem count_lt_succ (f : Nat → Nat) (q n : Nat) :
    Nat.count (fun c => f c < q + 1) n
      = Nat.count (fun c => f c < q) n + Nat.count (fun c => f c = q) n := by
  induction n with
  | zero => simp
  | succ n ih =>
    rw [Nat.count_succ, Nat.count_succ, Nat.count_succ, ih]
    split_ifs <;> omega

theorem count_lt_of_fibers (f : Nat → Nat) (n m : Nat) :
    ∀ q, (∀ v, v < q → Nat.count (fun c => f c = v) n = m) →
      Nat.count (fun c => f c < q) n = q * m := by
  intro q
  induction q with
  | zero => intro _; simp
  | succ q ih =>
    intro h
    rw [count_lt_succ, ih (fun v hv => h v (by omega)), h q (by omega)]
    ring

theorem count_and_mask_eq (k v : Nat) (hk : k ≤ 16) (hv : v < 2 ^ k) :
    Nat.count (fun c => c &&& mask_ceil_log2q k = v) (2 ^ 16) = 2 ^ (16 - k) := by
  have hpos : 0 < 2 ^ k := by positivity
  have hcongr : Nat.count (fun c => c &&& mask_ceil_log2q k = v) (2 ^ 16)
      = Nat.count (fun c => c ≡ v [MOD 2 ^ k]) (2 ^ 16) := by
    apply count_congr_iff
    intro c
    rw [mask_ceil_log2q_of_le k hk, Nat.and_pow_two_sub_one_eq_mod]
    unfold Nat.ModEq
    rw [Nat.mod_eq_of_lt hv]
  rw [hcongr, Nat.count_modEq_card _ hpos]
  have hdvd : 2 ^ 16 % 2 ^ k = 0 :=
    Nat.mod_eq_zero_of_dvd (Nat.pow_dvd_pow 2 hk)
  rw [hdvd, Nat.pow_div hk (by decide)]
  simp

theorem load16_chunk_stream (bo : ByteOrder) (c : Nat) :
    load16 bo (chunk_stream bo c 0) (chunk_stream bo c (0 + 1)) = c % 2 ^ 16 := by
  unfold load16 chunk_stream
  cases bo <;> simp only [Nat.zero_add, if_true, Nat.one_ne_zero, if_false] <;> omega

theorem mod_and_mask_ceil_log2q (c k : Nat) (hk : k ≤ 16) :
    c % 2 ^ 16 &&& mask_ceil_log2q k = c &&& mask_ceil_log2q k := by
  rw [mask_ceil_log2q_of_le k hk, Nat.and_pow_two_sub_one_eq_mod,
    Nat.and_pow_two_sub_one_eq_mod, Nat.mod_mod_of_dvd _ (Nat.pow_dvd_pow 2 hk)]

theorem sample_entry_chunk_stream (bo : ByteOrder) (c k q : Nat) (hk : k ≤ 16) :
    sample_entry bo (chunk_stream bo c) (mask_ceil_log2q k) q 1 0
      = if c &&& mask_ceil_log2q k ≥ q then none
        else some (c &&& mask_ceil_log2q k, 2) := by
  simp only [sample_entry, load16_chunk_stream, mod_and_mask_ceil_log2q c k hk]

/-- C5. Exact uniformity of the accept step. Let `1 ≤ q ≤ 2 ^ 16` and let the helper
return for `q` a `k = ceil_log2(q)` with `q ≤ 2 ^ k` and `k ≤ 16`. The mask of line 92 is
`2 ^ k - 1`. Run the `do … while` body of lines 103-106 once on a drng stream whose first
16-bit chunk is `c`: it accepts exactly when `c AND mask < q` and then leaves
`A_fixed[i] = c AND mask` after one two-byte draw; for every value `v` in `[0, q)` exactly
`2 ^ (16 - k)` of the `2 ^ 16` chunks `c` are accepted with `A_fixed[i] = v`, and
`q * 2 ^ (16 - k)` chunks are accepted in all. So a uniform chunk that is accepted is
uniform over `[0, q)`. -/
theorem accept_step_uniform (cl : Nat → Nat) (bo : ByteOrder) (q v : Nat) (_h1 : 1 ≤ q)
    (_h2 : q ≤ 2 ^ 16) (hcl1 : q ≤ 2 ^ cl q) (hcl2 : cl q ≤ 16) (hv : v < q) :
    mask_ceil_log2q (cl q) = 2 ^ cl q - 1 ∧
    (∀ c, sample_entry bo (chunk_stream bo c) (mask_ceil_log2q (cl q)) q 1 0
        = if c &&& (2 ^ cl q - 1) < q then some (c &&& (2 ^ cl q - 1), 2) else none) ∧
    Nat.count (fun c =>
        sample_entry bo (chunk_stream bo c) (mask_ceil_log2q (cl q)) q 1 0 = some (v, 2))
      (2 ^ 16) = 2 ^ (16 - cl q) ∧
    Nat.count (fun c =>
        (sample_entry bo (chunk_stream bo c) (mask_ceil_log2q (cl q)) q 1 0).isSome = true)
      (2 ^ 16) = q * 2 ^ (16 - cl q) := by
  have hmask := mask_ceil_log2q_of_le (cl q) hcl2
  refine ⟨hmask, ?_, ?_, ?_⟩
  · intro c
    rw [sample_entry_chunk_stream bo c (cl q) q hcl2, hmask]
    by_cases h : c &&& (2 ^ cl q - 1) < q
    · rw [if_neg (by omega), if_pos h]
    · rw [if_pos (by omega), if_neg h]
  · rw [← count_and_mask_eq (cl q) v hcl2 (by omega)]
    apply count_congr_iff
    intro c
    rw [sample_entry_chunk_stream bo c (cl q) q hcl2]
    by_cases h : c &&& mask_ceil_log2q (cl q) ≥ q
    · rw [if_pos h]
      constructor
      · intro h1; simp at h1
      · intro h1; omega
    · rw [if_neg h]
      simp
  · rw [← count_lt_of_fibers (fun c => c &&& mask_ceil_log2q (cl q)) (2 ^ 16)
      (2 ^ (16 - cl q)) q (fun w hw => count_and_mask_eq _ _ hcl2 (by omega))]
    apply count_congr_iff
    intro c
    rw [sample_entry_chunk_stream bo c (cl q) q hcl2]
    by_cases h : c &&& mask_ceil_log2q (cl q) ≥ q
    · rw [if_pos h]
      constructor
      · intro h1; simp at h1
      · intro h1; omega
    · rw [if_neg h]
      simp only [Option.isSome_some, true_iff]
      omega

theorem accept_step_uniform_witness :
    (1 ≤ 3 ∧ 3 ≤ 2 ^ 16 ∧ 3 ≤ 2 ^ ceil_log2 3 ∧ ceil_log2 3 ≤ 16 ∧ 1 < 3) ∧
    (mask_ceil_log2q (ceil_log2 3) = 2 ^ ceil_log2 3 - 1 ∧
     (∀ c, sample_entry ByteOrder.little (chunk_stream ByteOrder.little c)
           (mask_ceil_log2q (ceil_log2 3)) 3 1 0
         = if c &&& (2 ^ ceil_log2 3 - 1) < 3 then some (c &&& (2 ^ ceil_log2 3 - 1), 2)
           else none) ∧
     Nat.count (fun c =>
         sample_entry ByteOrder.little (chunk_stream ByteOrder.little c)
           (mask_ceil_log2q (ceil_log2 3)) 3 1 0 = some (1, 2))
       (2 ^ 16) = 2 ^ (16 - ceil_log2 3) ∧
     Nat.count (fun c =>
         (sample_entry ByteOrder.little (chunk_stream ByteOrder.little c)
           (mask_ceil_log2q (ceil_log2 3)) 3 1 0).isSome = true)
       (2 ^ 16) = 3 * 2 ^ (16 - ceil_log2 3)) :=
  ⟨⟨by decide, by decide, le_two_pow_ceil_log2 3, ceil_log2_le_16 3 (by decide), by decide⟩,
   accept_step_uniform ceil_log2 ByteOrder.little 3 1 (by decide) (by decide)
     (le_two_pow_ceil_log2 3) (ceil_log2_le_16 3 (by decide)) (by decide)⟩

theorem sample_entry_pow2 (bo : ByteOrder) (stream : Nat → Nat) (k fuel s : Nat) :
    sample_entry bo stream (mask_ceil_log2q k) (2 ^ k) (fuel + 1) (2 * s)
      = some (chunk16 bo stream s % 2 ^ k, 2 * (s + 1)) := by
  have hlt : chunk16 bo stream s % 2 ^ k < 2 ^ k := Nat.mod_lt _ (by positivity)
  have hm := chunk16_and_mask bo stream s k
  rw [Nat.and_pow_two_sub_one_eq_mod] at hm
  unfold chunk16 at hm hlt
  simp only [sample_entry, hm, ge_iff_le]
  rw [if_neg (by omega)]
  rfl

theorem generate_loop_pow2 (bo : ByteOrder) (stream : Nat → Nat) (k fuel : Nat) :
    ∀ (n s : Nat),
      generate_loop bo stream (mask_ceil_log2q k) (2 ^ k) (fuel + 1) n (2 * s)
        = some ((List.range n).map (fun i => chunk16 bo stream (s + i) % 2 ^ k),
                2 * (s + n)) := by
  intro n
  induction n with
  | zero => intro s; simp [generate_loop]
  | succ n ih =>
    intro s
    simp only [generate_loop, sample_entry_pow2, ih (s + 1)]
    rw [List.range_succ_eq_map]
    simp only [List.map_cons, List.map_map, Option.some.injEq, Prod.mk.injEq]
    refine ⟨?_, by ring⟩
    congr 1
    apply List.map_congr_left
    intro i _
    simp only [Function.comp, Nat.succ_eq_add_one]
    congr 2
    ring

/-- C8. Zero rejections for power-of-two moduli: when `q = 2 ^ k` with `0 ≤ k ≤ 16` and
`ceil_log2(q) = k`, then for every drng stream one run of the `do … while` body per entry
is enough (any fuel `≥ 1` gives the result): generation ends after exactly `d * d`
two-byte draws (stream position `2 * (d * d)`), and entry `i` is the `i`-th 16-bit chunk
reduced modulo `q`. -/
theorem power_of_two_zero_rejections (cl : Nat → Nat) (bo : ByteOrder) (stream : Nat → Nat)
    (k d fuel : Nat) (_hk : k ≤ 16) (hcl : cl (2 ^ k) = k) (hfuel : 1 ≤ fuel) :
    generate_A_fixed cl bo stream (2 ^ k) d fuel
      = some ((List.range (d * d)).map (fun i => chunk16 bo stream i % 2 ^ k),
              2 * (d * d)) := by
  obtain ⟨f, rfl⟩ : ∃ f, fuel = f + 1 := ⟨fuel - 1, by omega⟩
  have h := generate_loop_pow2 bo stream k f (d * d) 0
  simp only [Nat.zero_add, Nat.mul_zero] at h
  rw [generate_A_fixed, hcl]
  exact h

theorem power_of_two_zero_rejections_witness :
    (3 ≤ 16 ∧ ceil_log2 (2 ^ 3) = 3 ∧ 1 ≤ 1) ∧
    generate_A_fixed ceil_log2 ByteOrder.big example_stream (2 ^ 3) 2 1
      = some ((List.range (2 * 2)).map
                (fun i => chunk16 ByteOrder.big example_stream i % 2 ^ 3), 2 * (2 * 2)) :=
  have hcl : ceil_log2 (2 ^ 3) = 3 := Nat.clog_pow 2 3 (by decide)
  ⟨⟨by decide, hcl, by decide⟩,
   power_of_two_zero_rejections ceil_log2 ByteOrder.big example_stream 3 2 1
     (by decide) hcl (by decide)⟩


theorem sample_entry_fuel_indep (bo : ByteOrder) (stream : Nat → Nat) (mask q : Nat) :
    ∀ (fuel1 fuel2 pos : Nat) (r1 r2 : Nat × Nat),
      sample_entry bo stream mask q fuel1 pos = some r1 →
      sample_entry bo stream mask q fuel2 pos = some r2 → r1 = r2 := by
  intro fuel1
  induction fuel1 with
  | zero => intro fuel2 pos r1 r2 h1; simp [sample_entry] at h1
  | succ f ih =>
    intro fuel2 pos r1 r2 h1 h2
    cases fuel2 with
    | zero => simp [sample_entry] at h2
    | succ g =>
      simp only [sample_entry] at h1 h2
      split at h1
      · next hge =>
        rw [if_pos hge] at h2
        exact ih _ _ _ _ h1 h2
      · next hlt =>
        rw [if_neg hlt] at h2
        rw [← Option.some.inj h1, ← Option.some.inj h2]

theorem generate_loop_fuel_indep (bo : ByteOrder) (stream : Nat → Nat)
    (mask q fuel1 fuel2 : Nat) :
    ∀ (n pos : Nat) (r1 r2 : List Nat × Nat),
      generate_loop bo stream mask q fuel1 n pos = some r1 →
      generate_loop bo stream mask q fuel2 n pos = some r2 → r1 = r2 := by
  intro n
  induction n with
  | zero =>
    intro pos r1 r2 h1 h2
    simp only [generate_loop, Option.some.injEq] at h1 h2
    rw [← h1, ← h2]
  | succ n ih =>
    intro pos r1 r2 h1 h2
    simp only [generate_loop] at h1 h2
    cases hs1 : sample_entry bo stream mask q fuel1 pos with
    | none => simp [hs1] at h1
    | some e1 =>
      cases hs2 : sample_entry bo stream mask q fuel2 pos with
      | none => simp [hs2] at h2
      | some e2 =>
        have he := sample_entry_fuel_indep _ _ _ _ _ _ _ _ _ hs1 hs2
        subst he
        obtain ⟨a, p1⟩ := e1
        simp only [hs1] at h1
        simp only [hs2] at h2
        cases hg1 : generate_loop bo stream mask q fuel1 n p1 with
        | none => simp [hg1] at h1
        | some t1 =>
          cases hg2 : generate_loop bo stream mask q fuel2 n p1 with
          | none => simp [hg2] at h2
          | some t2 =>
            have ht := ih _ _ _ hg1 hg2
            subst ht
            simp only [hg1, Option.some.injEq] at h1
            simp only [hg2, Option.some.injEq] at h2
            rw [← h1, ← h2]

theorem createAfixed_main_returned (env : Env) (arg : Option Int) (fuel : Nat)
    (calls : List Call) (seed A : List Nat)
    (h : createAfixed_main env arg fuel = Outcome.returned calls seed A) :
    ∃ row pos, env.table[api_set_number arg]? = some row ∧ row.n = 1 ∧
      seed = env.randombytes (env.set_parameters (set_parameters_args row)).ss_size ∧
      generate_A_fixed env.ceil_log2 env.byte_order (env.drng seed)
        (env.set_parameters (set_parameters_args row)).q
        (env.set_parameters (set_parameters_args row)).d fuel = some (A, pos) ∧
      calls = [Call.set_parameters (set_parameters_args row),
               Call.randombytes (env.set_parameters (set_parameters_args row)).ss_size,
               Call.init_drng seed] ++ List.replicate (pos / 2) (Call.drng 2) := by
  unfold createAfixed_main at h
  simp only at h
  split at h
  · exact absurd h (by simp)
  · split at h
    · exact absurd h (by simp)
    · next row hrow =>
      split at h
      · exact absurd h (by simp)
      · next hn =>
        split at h
        · exact absurd h (by simp)
        · next A1 pos hgen =>
          simp only [Outcome.returned.injEq] at h
          obtain ⟨hc, hs, hA⟩ := h
          subst hA
          refine ⟨row, pos, hrow, by simpa using hn, hs.symm, ?_, ?_⟩
          · rw [← hs]; exact hgen
          · rw [← hc, ← hs]

/-- C7. Determinism of matrix generation: take a run of `createAfixed` that returns
`A_fixed` from seed `seed`, and a second run in which the system randomness source is
replaced by any other one that delivers the same seed, with any other fuel. Both return
the same entries and make the same calls. The calls are `set_parameters`, one
`randombytes` for the seed, `init_drng`, and after that only two-byte `drng` draws: the
randomness source is not consulted in the generation loop. `A_fixed` has `d * d`
entries and is the value of the generation loop on the stream of that seed with the
`q` and `d` of the parameter record, whatever the fuel. -/
theorem createAfixed_deterministic (env : Env) (rb : Nat → List Nat) (arg : Option Int)
    (fuel1 fuel2 : Nat) (calls1 calls2 : List Call) (seed A1 A2 : List Nat)
    (h1 : createAfixed_main env arg fuel1 = Outcome.returned calls1 seed A1)
    (h2 : createAfixed_main { env with randombytes := rb } arg fuel2
            = Outcome.returned calls2 seed A2) :
    A1 = A2 ∧ calls1 = calls2 ∧
    ∃ row draws, env.table[api_set_number arg]? = some row ∧
      A1.length = (env.set_parameters (set_parameters_args row)).d
                    * (env.set_parameters (set_parameters_args row)).d ∧
      calls1 = [Call.set_parameters (set_parameters_args row),
                Call.randombytes (env.set_parameters (set_parameters_args row)).ss_size,
                Call.init_drng seed] ++ List.replicate draws (Call.drng 2) ∧
      ∀ fuel A pos,
        generate_A_fixed env.ceil_log2 env.byte_order (env.drng seed)
          (env.set_parameters (set_parameters_args row)).q
          (env.set_parameters (set_parameters_args row)).d fuel = some (A, pos) →
        A = A1 := by
  obtain ⟨row1, pos1, hrow1, -, -, hgen1, hcalls1⟩ := createAfixed_main_returned _ _ _ _ _ _ h1
  obtain ⟨row2, pos2, hrow2, -, -, hgen2, hcalls2⟩ := createAfixed_main_returned _ _ _ _ _ _ h2
  simp only at hrow2 hgen2 hcalls2
  have hrow : row1 = row2 := Option.some.inj (hrow1.symm.trans hrow2)
  subst hrow
  have heq := generate_loop_fuel_indep _ _ _ _ _ _ _ _ _ _ hgen1 hgen2
  simp only [Prod.mk.injEq] at heq
  obtain ⟨hA, hpos⟩ := heq
  subst hA hpos
  refine ⟨rfl, by rw [hcalls1, hcalls2], row1, pos1 / 2, hrow1, ?_, hcalls1, ?_⟩
  · exact (generate_loop_range _ _ _ _ _ _ _ _ _ hgen1).1
  · intro fuel A pos hgen
    have := generate_loop_fuel_indep _ _ _ _ _ _ _ _ _ _ hgen hgen1
    exact (Prod.mk.inj this).1


theorem ceil_log2_three : ceil_log2 3 = 2 := by simp [ceil_log2, Nat.clog]

theorem createAfixed_main_of_generate (env : Env) (arg : Option Int) (fuel : Nat)
    (row : ParamRow) (A : List Nat) (pos : Nat)
    (hrow : env.table[api_set_number arg]? = some row) (hn : row.n = 1)
    (hgen : generate_A_fixed env.ceil_log2 env.byte_order
        (env.drng (env.randombytes (env.set_parameters (set_parameters_args row)).ss_size))
        (env.set_parameters (set_parameters_args row)).q
        (env.set_parameters (set_parameters_args row)).d fuel = some (A, pos)) :
    createAfixed_main env arg fuel
      = Outcome.returned
          ([Call.set_parameters (set_parameters_args row),
            Call.randombytes (env.set_parameters (set_parameters_args row)).ss_size,
            Call.init_drng
              (env.randombytes (env.set_parameters (set_parameters_args row)).ss_size)]
            ++ List.replicate (pos / 2) (Call.drng 2))
          (env.randombytes (env.set_parameters (set_parameters_args row)).ss_size) A := by
  have hlt : api_set_number arg < env.table.length := by
    obtain ⟨hlt, -⟩ := List.getElem?_eq_some_iff.mp hrow
    exact hlt
  unfold createAfixed_main
  simp only [hrow, hn, hgen, if_neg (Nat.lt_asymm hlt)]
  simp

theorem example_generate :
    generate_A_fixed ceil_log2 ByteOrder.little (example_drng (List.replicate 16 0)) 3 2 2
      = some ([1, 1, 1, 1], 16) := by
  rw [generate_A_fixed, ceil_log2_three]
  decide

theorem createAfixed_deterministic_witness :
    (createAfixed_main example_env (some 0) 2
        = Outcome.returned
            ([Call.set_parameters (ParamRow.mk 16 2 1 1 3 1 1 1 1 1), Call.randombytes 16,
              Call.init_drng (List.replicate 16 0)] ++ List.replicate 8 (Call.drng 2))
            (List.replicate 16 0) [1, 1, 1, 1] ∧
      createAfixed_main
          { example_env with randombytes := fun n => (List.range n).map (fun i => i / 16) }
          (some 0) 5
        = Outcome.returned
            ([Call.set_parameters (ParamRow.mk 16 2 1 1 3 1 1 1 1 1), Call.randombytes 16,
              Call.init_drng (List.replicate 16 0)] ++ List.replicate 8 (Call.drng 2))
            (List.replicate 16 0) [1, 1, 1, 1]) ∧
    ([1, 1, 1, 1] = [1, 1, 1, 1] ∧
      [Call.set_parameters (ParamRow.mk 16 2 1 1 3 1 1 1 1 1), Call.randombytes 16,
          Call.init_drng (List.replicate 16 0)] ++ List.replicate 8 (Call.drng 2)
        = [Call.set_parameters (ParamRow.mk 16 2 1 1 3 1 1 1 1 1), Call.randombytes 16,
          Call.init_drng (List.replicate 16 0)] ++ List.replicate 8 (Call.drng 2) ∧
      ∃ row draws, example_env.table[api_set_number (some 0)]? = some row ∧
        [1, 1, 1, 1].length = (example_env.set_parameters (set_parameters_args row)).d
                      * (example_env.set_parameters (set_parameters_args row)).d ∧
        [Call.set_parameters (ParamRow.mk 16 2 1 1 3 1 1 1 1 1), Call.randombytes 16,
            Call.init_drng (List.replicate 16 0)] ++ List.replicate 8 (Call.drng 2)
          = [Call.set_parameters (set_parameters_args row),
              Call.randombytes (example_env.set_parameters (set_parameters_args row)).ss_size,
              Call.init_drng (List.replicate 16 0)] ++ List.replicate draws (Call.drng 2) ∧
        ∀ fuel A pos,
          generate_A_fixed example_env.ceil_log2 example_env.byte_order
            (example_env.drng (List.replicate 16 0))
            (example_env.set_parameters (set_parameters_args row)).q
            (example_env.set_parameters (set_parameters_args row)).d fuel = some (A, pos) →
          A = [1, 1, 1, 1]) :=
  have h1 := createAfixed_main_of_generate example_env (some 0) 2
    (ParamRow.mk 16 2 1 1 3 1 1 1 1 1) [1, 1, 1, 1] 16 (by decide) (by decide)
    example_generate
  have hgen2 : generate_A_fixed ceil_log2 ByteOrder.little
      (example_drng (List.replicate 16 0)) 3 2 5 = some ([1, 1, 1, 1], 16) := by
    rw [generate_A_fixed, ceil_log2_three]
    decide
  have h2 := createAfixed_main_of_generate
    { example_env with randombytes := fun n => (List.range n).map (fun i => i / 16) }
    (some 0) 5 (ParamRow.mk 16 2 1 1 3 1 1 1 1 1) [1, 1, 1, 1] 16 (by decide) (by decide)
    hgen2
  ⟨⟨h1, h2⟩, createAfixed_deterministic _ _ _ _ _ _ _ _ _ _ h1 h2⟩

/-! ## The checks of `createAfixed` on the api set number -/

/-- C9. The fixed-matrix tool accepts non-ring parameter sets only: for every api set
number that indexes a row of the table (such a number passes the range check of line
70), `main` ends in `exit(EXIT_FAILURE)` with no call of `set_parameters`, `randombytes`
or `drng` made before, if and only if the column `POS_N` of that row differs from 1; and
whenever `main` ends in `exit(EXIT_FAILURE)`, none of these calls was made. -/
theorem createAfixed_non_ring_only (env : Env) (arg : Option Int) (fuel : Nat)
    (row : ParamRow) (hrow : env.table[api_set_number arg]? = some row) :
    ¬ (api_set_number arg > env.table.length) ∧
    (createAfixed_main env arg fuel = Outcome.exit_failure [] ↔ row.n ≠ 1) ∧
    ∀ calls, createAfixed_main env arg fuel = Outcome.exit_failure calls → calls = [] := by
  have hlt : api_set_number arg < env.table.length := by
    obtain ⟨hlt, -⟩ := List.getElem?_eq_some_iff.mp hrow
    exact hlt
  refine ⟨Nat.lt_asymm hlt, ?_, ?_⟩
  · unfold createAfixed_main
    simp only [hrow, if_neg (Nat.lt_asymm hlt)]
    by_cases hn : row.n = 1
    · simp only [hn, ne_eq, not_true_eq_false, if_false, iff_false]
      split <;> simp
    · simp [hn]
  · intro calls
    unfold createAfixed_main
    simp only [hrow, if_neg (Nat.lt_asymm hlt)]
    by_cases hn : row.n = 1
    · simp only [hn, ne_eq, not_true_eq_false, if_false]
      split <;> simp
    · simp only [ne_eq, hn, not_false_eq_true, if_true, Outcome.exit_failure.injEq]
      exact fun h => h.symm

theorem createAfixed_non_ring_only_witness :
    example_env.table[api_set_number (some 1)]? = some (ParamRow.mk 16 2 2 1 8 2 1 1 1 1) ∧
    (¬ (api_set_number (some 1) > example_env.table.length) ∧
     (createAfixed_main example_env (some 1) 3 = Outcome.exit_failure []
        ↔ (ParamRow.mk 16 2 2 1 8 2 1 1 1 1).n ≠ 1) ∧
     ∀ calls, createAfixed_main example_env (some 1) 3 = Outcome.exit_failure calls →
       calls = []) :=
  ⟨by decide, createAfixed_non_ring_only example_env (some 1) 3 _ (by decide)⟩

theorem to_unsigned_long_of_nonneg (n : Nat) (h : n < 2 ^ 64) :
    to_unsigned_long (n : Int) = n := by
  unfold to_unsigned_long
  have : ((n : Int) % 2 ^ 64) = ((n % 2 ^ 64 : Nat) : Int) := by norm_cast
  rw [this, Int.toNat_ofNat, Nat.mod_eq_of_lt h]

theorem to_unsigned_long_of_neg (v : Int) (h1 : -2 ^ 63 ≤ v) (h2 : v < 0) :
    2 ^ 63 ≤ to_unsigned_long v := by
  unfold to_unsigned_long
  omega

/-- C10, the range check of line 70 as the code has it. When the table has `N` rows
(`N < 2 ^ 63`): an api set number above `N`, and every negative `long` (it converts to an
unsigned number `≥ 2 ^ 63`), ends in `exit(EXIT_FAILURE)` before the table is read; but
the api set number `N` itself passes the check `api_set_number > N`, and the run reads
`api_to_internal_parameters[N]`, one row past the end of the table. -/
theorem createAfixed_range_check (env : Env) (fuel : Nat)
    (hN : env.table.length < 2 ^ 63) :
    createAfixed_main env (some (env.table.length : Int)) fuel = Outcome.out_of_bounds ∧
    (∀ v : Int, env.table.length < to_unsigned_long v →
      createAfixed_main env (some v) fuel = Outcome.exit_failure []) ∧
    (∀ v : Int, -2 ^ 63 ≤ v → v < 0 →
      createAfixed_main env (some v) fuel = Outcome.exit_failure []) := by
  have habove : ∀ v : Int, env.table.length < to_unsigned_long v →
      createAfixed_main env (some v) fuel = Outcome.exit_failure [] := by
    intro v hv
    unfold createAfixed_main
    simp only [api_set_number]
    rw [if_pos hv]
  refine ⟨?_, habove, ?_⟩
  · unfold createAfixed_main
    simp only [api_set_number]
    rw [to_unsigned_long_of_nonneg _ (by omega)]
    simp
  · intro v h1 h2
    apply habove
    have := to_unsigned_long_of_neg v h1 h2
    omega

theorem createAfixed_range_check_witness :
    example_env.table.length < 2 ^ 63 ∧
    (createAfixed_main example_env (some (example_env.table.length : Int)) 3
        = Outcome.out_of_bounds ∧
     (∀ v : Int, example_env.table.length < to_unsigned_long v →
       createAfixed_main example_env (some v) 3 = Outcome.exit_failure []) ∧
     (∀ v : Int, -2 ^ 63 ≤ v → v < 0 →
       createAfixed_main example_env (some v) 3 = Outcome.exit_failure [])) :=
  ⟨by decide, createAfixed_range_check example_env 3 (by decide)⟩


/-! ## `randombytes` -/

theorem write_count_cons (e : ReadCall) (l : List ReadCall) (o : Nat) :
    write_count (e :: l) o
      = (if 0 ≤ e.ret ∧ e.off ≤ o ∧ o < e.off + e.ret.toNat then 1 else 0)
        + write_count l o := by
  unfold write_count
  rw [List.filter_cons]
  by_cases h : 0 ≤ e.ret ∧ e.off ≤ o ∧ o < e.off + e.ret.toNat
  · simp only [h, and_self, decide_True, if_true, List.length_cons]
    omega
  · simp only [h, decide_False, if_false, Bool.false_eq_true]
    omega

theorem bytes_read_cons (e : ReadCall) (l : List ReadCall) :
    bytes_read (e :: l) = (if 0 ≤ e.ret then e.ret.toNat else 0) + bytes_read l := by
  simp [bytes_read]

theorem read_count_le (xlen : Nat) : read_count xlen ≤ xlen := by
  unfold read_count
  split <;> omega

theorem open_loop_reads (os : Sys) :
    ∀ (fuel : Nat) (w w1 : World), open_loop os fuel w = some w1 → w1.reads = w.reads := by
  intro fuel
  induction fuel with
  | zero =>
    intro w w1 h
    simp only [open_loop] at h
    split at h
    · simp at h
    · rw [← Option.some.inj h]
  | succ f ih =>
    intro w w1 h
    simp only [open_loop] at h
    split at h
    · have h1 := ih _ _ h
      simpa using h1
    · rw [← Option.some.inj h]

theorem read_loop_spec (os : Sys)
    (hread : ∀ k fd n, os.read k fd n < 0 ∨ os.read k fd n ≤ (n : Int)) :
    ∀ (fuel : Nat) (w : World) (x xlen : Nat) (w1 : World) (x1 xlen1 : Nat),
      xlen < 2 ^ 64 →
      read_loop os fuel w x xlen = some (w1, x1, xlen1) →
      ∃ new : List ReadCall, w1.reads = w.reads ++ new ∧
        xlen1 = 0 ∧ x1 = x + xlen ∧ bytes_read new = xlen ∧
        (∀ o, write_count new o = if x ≤ o ∧ o < x + xlen then 1 else 0) ∧
        (∀ e ∈ new.head?, e.off = x ∧ e.remaining = xlen) ∧
        List.Chain' (fun e e1 =>
          (e.ret < 0 → e1.off = e.off ∧ e1.remaining = e.remaining) ∧
          (0 ≤ e.ret → e1.off = e.off + e.ret.toNat ∧
            e1.remaining + e.ret.toNat = e.remaining)) new := by
  have hdone : ∀ (w : World) (x xlen : Nat) (w1 : World) (x1 xlen1 : Nat),
      ¬ xlen > 0 → some (w, x, xlen) = some (w1, x1, xlen1) →
      ∃ new : List ReadCall, w1.reads = w.reads ++ new ∧
        xlen1 = 0 ∧ x1 = x + xlen ∧ bytes_read new = xlen ∧
        (∀ o, write_count new o = if x ≤ o ∧ o < x + xlen then 1 else 0) ∧
        (∀ e ∈ new.head?, e.off = x ∧ e.remaining = xlen) ∧
        List.Chain' (fun e e1 =>
          (e.ret < 0 → e1.off = e.off ∧ e1.remaining = e.remaining) ∧
          (0 ≤ e.ret → e1.off = e.off + e.ret.toNat ∧
            e1.remaining + e.ret.toNat = e.remaining)) new := by
    intro w x xlen w1 x1 xlen1 hx h
    simp only [Option.some.injEq, Prod.mk.injEq] at h
    obtain ⟨hw, hx1, hxl⟩ := h
    have hz : xlen = 0 := by omega
    subst hz
    refine ⟨[], by simp [← hw], hxl.symm, by omega, by simp [bytes_read], ?_, by simp, by simp⟩
    intro o
    rw [if_neg (by omega)]
    simp [write_count]
  intro fuel
  induction fuel with
  | zero =>
    intro w x xlen w1 x1 xlen1 _ h
    simp only [read_loop] at h
    split at h
    · simp at h
    · next hx => exact hdone _ _ _ _ _ _ hx h
  | succ f ih =>
    intro w x xlen w1 x1 xlen1 hlen h
    simp only [read_loop] at h
    split at h
    · next hpos =>
      have hcount := read_count_le xlen
      have hrd := hread w.reads.length w.urandom (read_count xlen)
      generalize os.read w.reads.length w.urandom (read_count xlen) = s at h hrd
      split at h
      · next hs =>
        have hsub : (xlen + 2 ^ 64 - s.toNat % 2 ^ 64) % 2 ^ 64 = xlen - s.toNat := by
          norm_num at hlen ⊢
          omega
        rw [hsub] at h
        obtain ⟨new, hreads, hxl, hx1, hbytes, hwrite, hhead, hchain⟩ :=
          ih _ _ _ _ _ _ (by omega) h
        refine ⟨ReadCall.mk w.urandom x xlen (read_count xlen) s :: new,
          by simp [hreads], hxl, by omega, ?_, ?_, by simp, ?_⟩
        · rw [bytes_read_cons, hbytes]
          simp only [ge_iff_le.mp hs, if_true]
          omega
        · intro o
          rw [write_count_cons, hwrite o]
          simp only [ge_iff_le.mp hs, true_and]
          split_ifs <;> omega
        · rw [List.chain'_cons']
          refine ⟨?_, hchain⟩
          intro e1 he1
          obtain ⟨h1, h2⟩ := hhead e1 he1
          simp only
          exact ⟨fun hneg => by omega, fun _ => ⟨h1, by omega⟩⟩
      · next hs =>
        obtain ⟨new, hreads, hxl, hx1, hbytes, hwrite, hhead, hchain⟩ :=
          ih _ _ _ _ _ _ hlen h
        have hs1 : ¬ (0 ≤ s) := hs
        refine ⟨ReadCall.mk w.urandom x xlen (read_count xlen) s :: new,
          by simp [hreads], hxl, hx1, ?_, ?_, by simp, ?_⟩
        · rw [bytes_read_cons, hbytes]
          simp [hs1]
        · intro o
          rw [write_count_cons, hwrite o]
          simp [hs1]
        · rw [List.chain'_cons']
          refine ⟨?_, hchain⟩
          intro e1 he1
          obtain ⟨h1, h2⟩ := hhead e1 he1
          simp only
          exact ⟨fun _ => ⟨h1, h2⟩, fun hnn => absurd hnn hs1⟩
    · next hx => exact hdone _ _ _ _ _ _ hx h


/-- C6. `randombytes` never returns short output. Let `read` return, at every call, a
negative value or a count between 0 and the count asked for, and let `xlen < 2 ^ 64`.
Whenever `randombytes(x, xlen)` returns, its return value is 0, `xlen` has reached 0 and
the pointer has advanced by the `xlen` asked for; the counts returned by the successful
reads of this call sum to exactly `xlen`; every offset `0, …, xlen - 1` of the buffer was
written exactly once and no other offset was written; the first read was issued at offset
0 with `xlen` bytes remaining; after a failed read (`s < 0`) the next read was issued at
the same offset with the same remaining count, and after a successful one at the offset
and remaining count moved by the bytes read. -/
theorem randombytes_no_short_output (os : Sys) (fuel : Nat) (w : World) (xlen : Nat)
    (r : RandResult)
    (hread : ∀ k fd n, os.read k fd n < 0 ∨ os.read k fd n ≤ (n : Int))
    (hxlen : xlen < 2 ^ 64)
    (h : randombytes os fuel w xlen = some r) :
    ∃ new : List ReadCall, r.world.reads = w.reads ++ new ∧
      r.ret = 0 ∧ r.xlen = 0 ∧ r.x = xlen ∧
      bytes_read new = xlen ∧
      (∀ o, write_count new o = if o < xlen then 1 else 0) ∧
      (∀ e ∈ new.head?, e.off = 0 ∧ e.remaining = xlen) ∧
      List.Chain' (fun e e1 =>
        (e.ret < 0 → e1.off = e.off ∧ e1.remaining = e.remaining) ∧
        (0 ≤ e.ret → e1.off = e.off + e.ret.toNat ∧
          e1.remaining + e.ret.toNat = e.remaining)) new := by
  unfold randombytes at h
  cases ho : open_loop os fuel w with
  | none => simp [ho] at h
  | some w1 =>
    simp only [ho] at h
    cases hr : read_loop os fuel w1 0 xlen with
    | none => simp [hr] at h
    | some t =>
      obtain ⟨w2, x2, xl2⟩ := t
      simp only [hr, Option.some.injEq] at h
      obtain ⟨new, hreads, hxl, hx, hbytes, hwrite, hhead, hchain⟩ :=
        read_loop_spec os hread _ _ _ _ _ _ _ hxlen hr
      subst h
      refine ⟨new, ?_, rfl, hxl, by simpa using hx, hbytes, ?_, hhead, hchain⟩
      · simp only [hreads, open_loop_reads os _ _ _ ho]
      · intro o
        rw [hwrite o]
        simp


theorem example_sys_read (k : Nat) (fd : Int) (n : Nat) :
    example_sys.read k fd n < 0 ∨ example_sys.read k fd n ≤ (n : Int) := by
  unfold example_sys
  simp only
  split
  · left; decide
  · right; omega

theorem randombytes_no_short_output_witness :
    ((∀ k fd n, example_sys.read k fd n < 0 ∨ example_sys.read k fd n ≤ (n : Int)) ∧
      5 < 2 ^ 64 ∧
      randombytes example_sys 6 World.init 5 = some example_rand_result) ∧
    ∃ new : List ReadCall, example_rand_result.world.reads = World.init.reads ++ new ∧
      example_rand_result.ret = 0 ∧ example_rand_result.xlen = 0 ∧
      example_rand_result.x = 5 ∧
      bytes_read new = 5 ∧
      (∀ o, write_count new o = if o < 5 then 1 else 0) ∧
      (∀ e ∈ new.head?, e.off = 0 ∧ e.remaining = 5) ∧
      List.Chain' (fun e e1 =>
        (e.ret < 0 → e1.off = e.off ∧ e1.remaining = e.remaining) ∧
        (0 ≤ e.ret → e1.off = e.off + e.ret.toNat ∧
          e1.remaining + e.ret.toNat = e.remaining)) new :=
  have h : randombytes example_sys 6 World.init 5 = some example_rand_result := by decide
  ⟨⟨example_sys_read, by decide, h⟩,
   randombytes_no_short_output example_sys 6 World.init 5 example_rand_result
     example_sys_read (by decide) h⟩

/-! ## `randombytes`: the descriptor and the size of the reads -/

theorem open_loop_spec (os : Sys) :
    ∀ (fuel : Nat) (w w1 : World), open_loop os fuel w = some w1 →
      (w.urandom ≠ -1 → w1 = w) ∧
      (w.urandom = -1 → ∃ k, w1.opens = w.opens ++ List.replicate k (-1) ++ [w1.urandom] ∧
        w1.urandom ≠ -1) := by
  intro fuel
  induction fuel with
  | zero =>
    intro w w1 h
    simp only [open_loop] at h
    split at h
    · simp at h
    · next hne =>
      exact ⟨fun _ => (Option.some.inj h).symm, fun he => absurd he hne⟩
  | succ f ih =>
    intro w w1 h
    simp only [open_loop] at h
    split at h
    · next heq =>
      refine ⟨fun hne => absurd heq hne, fun _ => ?_⟩
      obtain ⟨h1, h2⟩ := ih _ _ h
      by_cases hr : os.open_ w.opens.length = -1
      · obtain ⟨k, hk, hne⟩ := h2 hr
        refine ⟨k + 1, ?_, hne⟩
        rw [hk, hr, List.replicate_succ]
        simp
      · have hw := h1 hr
        refine ⟨0, ?_, ?_⟩
        · rw [hw]
          simp
        · rw [hw]
          exact hr
    · next hne =>
      exact ⟨fun _ => (Option.some.inj h).symm, fun he => absurd he hne⟩

theorem read_loop_frame (os : Sys) :
    ∀ (fuel : Nat) (w : World) (x xlen : Nat) (w1 : World) (x1 xlen1 : Nat),
      read_loop os fuel w x xlen = some (w1, x1, xlen1) →
      w1.urandom = w.urandom ∧ w1.opens = w.opens ∧
      ∃ new : List ReadCall, w1.reads = w.reads ++ new ∧
        (∀ e ∈ new, e.fd = w.urandom ∧ 0 < e.remaining ∧
          e.count = read_count e.remaining) ∧
        (xlen = 0 → new = []) := by
  intro fuel
  induction fuel with
  | zero =>
    intro w x xlen w1 x1 xlen1 h
    simp only [read_loop] at h
    split at h
    · simp at h
    · simp only [Option.some.injEq, Prod.mk.injEq] at h
      obtain ⟨hw, -, -⟩ := h
      subst hw
      exact ⟨rfl, rfl, [], by simp, by simp, fun _ => rfl⟩
  | succ f ih =>
    intro w x xlen w1 x1 xlen1 h
    simp only [read_loop] at h
    split at h
    · next hpos =>
      generalize os.read w.reads.length w.urandom (read_count xlen) = s at h
      have key : ∀ (x2 xlen2 : Nat),
          read_loop os f
            { w with reads := w.reads ++ [ReadCall.mk w.urandom x xlen (read_count xlen) s] }
            x2 xlen2 = some (w1, x1, xlen1) →
          w1.urandom = w.urandom ∧ w1.opens = w.opens ∧
          ∃ new : List ReadCall, w1.reads = w.reads ++ new ∧
            (∀ e ∈ new, e.fd = w.urandom ∧ 0 < e.remaining ∧
              e.count = read_count e.remaining) ∧
            (xlen = 0 → new = []) := by
        intro x2 xlen2 h2
        obtain ⟨hu, ho, new, hreads, hall, -⟩ := ih _ _ _ _ _ _ h2
        refine ⟨hu, ho, ReadCall.mk w.urandom x xlen (read_count xlen) s :: new,
          by simp [hreads], ?_, fun h0 => by omega⟩
        intro e he
        rcases List.mem_cons.mp he with rfl | he
        · exact ⟨rfl, hpos, rfl⟩
        · exact hall e he
      split at h
      · exact key _ _ h
      · exact key _ _ h
    · simp only [Option.some.injEq, Prod.mk.injEq] at h
      obtain ⟨hw, -, -⟩ := h
      subst hw
      exact ⟨rfl, rfl, [], by simp, by simp, fun _ => rfl⟩

theorem randombytes_frame (os : Sys) (fuel : Nat) (w : World) (xlen : Nat) (r : RandResult)
    (h : randombytes os fuel w xlen = some r) :
    ∃ w1, open_loop os fuel w = some w1 ∧
      r.world.urandom = w1.urandom ∧ r.world.opens = w1.opens ∧
      ∃ new : List ReadCall, r.world.reads = w.reads ++ new ∧
        (∀ e ∈ new, e.fd = w1.urandom ∧ 0 < e.remaining ∧
          e.count = read_count e.remaining) ∧
        (xlen = 0 → new = []) := by
  unfold randombytes at h
  cases ho : open_loop os fuel w with
  | none => simp [ho] at h
  | some w1 =>
    simp only [ho] at h
    cases hr : read_loop os fuel w1 0 xlen with
    | none => simp [hr] at h
    | some t =>
      obtain ⟨w2, x2, xl2⟩ := t
      simp only [hr, Option.some.injEq] at h
      subst h
      obtain ⟨hu, hop, new, hreads, hall, hnil⟩ := read_loop_frame os _ _ _ _ _ _ _ hr
      refine ⟨w1, rfl, hu, hop, new, ?_, hall, hnil⟩
      simp only [hreads, open_loop_reads os _ _ _ ho]

/-- C17. Chunk limit of `randombytes`: `CHUNK_SIZE` is 1048576, and when a call
`randombytes(x, xlen)` returns, every read it issued asked for exactly
`min(remaining, CHUNK_SIZE)` bytes, where `remaining` is the value of `xlen` at that read:
never more than 1048576 bytes, never more than the bytes still missing, never 0 bytes; and
for `xlen = 0` the call issued no read. -/
theorem randombytes_chunk_limit (os : Sys) (fuel : Nat) (w : World) (xlen : Nat)
    (r : RandResult) (h : randombytes os fuel w xlen = some r) :
    CHUNK_SIZE = 1048576 ∧
    ∃ new : List ReadCall, r.world.reads = w.reads ++ new ∧
      (∀ e ∈ new, e.count = min e.remaining CHUNK_SIZE ∧ e.count ≤ 1048576 ∧
        e.count ≤ e.remaining ∧ 0 < e.count) ∧
      (xlen = 0 → new = []) := by
  obtain ⟨w1, -, -, -, new, hreads, hall, hnil⟩ := randombytes_frame os fuel w xlen r h
  refine ⟨rfl, new, hreads, ?_, hnil⟩
  intro e he
  obtain ⟨-, hpos, hcount⟩ := hall e he
  rw [hcount]
  unfold read_count CHUNK_SIZE
  split <;> omega

theorem randombytes_chunk_limit_witness :
    randombytes example_sys 6 World.init 5 = some example_rand_result ∧
    (CHUNK_SIZE = 1048576 ∧
     ∃ new : List ReadCall, example_rand_result.world.reads = World.init.reads ++ new ∧
       (∀ e ∈ new, e.count = min e.remaining CHUNK_SIZE ∧ e.count ≤ 1048576 ∧
         e.count ≤ e.remaining ∧ 0 < e.count) ∧
       ((5 : Nat) = 0 → new = [])) :=
  have h : randombytes example_sys 6 World.init 5 = some example_rand_result := by decide
  ⟨h, randombytes_chunk_limit example_sys 6 World.init 5 example_rand_result h⟩

theorem randombytes_calls_frame (os : Sys) (fuel : Nat) :
    ∀ (xlens : List Nat) (w w2 : World), w.urandom ≠ -1 →
      randombytes_calls os fuel w xlens = some w2 →
      w2.urandom = w.urandom ∧ w2.opens = w.opens ∧
      ∃ new : List ReadCall, w2.reads = w.reads ++ new ∧ ∀ e ∈ new, e.fd = w.urandom := by
  intro xlens
  induction xlens with
  | nil =>
    intro w w2 _ h
    simp only [randombytes_calls, Option.some.injEq] at h
    subst h
    exact ⟨rfl, rfl, [], by simp, by simp⟩
  | cons xlen rest ih =>
    intro w w2 hne h
    simp only [randombytes_calls] at h
    cases hr : randombytes os fuel w xlen with
    | none => simp [hr] at h
    | some r =>
      simp only [hr] at h
      obtain ⟨w1, ho, hu, hop, new, hreads, hall, -⟩ := randombytes_frame os fuel w xlen r hr
      have hw1 : w1 = w := (open_loop_spec os fuel w w1 ho).1 hne
      subst hw1
      obtain ⟨hu2, hop2, new2, hreads2, hfd⟩ := ih r.world w2 (by rw [hu]; exact hne) h
      refine ⟨by rw [hu2, hu], by rw [hop2, hop], new ++ new2, ?_, ?_⟩
      · rw [hreads2, hreads, List.append_assoc]
      · intro e he
        rcases List.mem_append.mp he with he | he
        · exact (hall e he).1
        · rw [← hu]
          exact hfd e he

theorem randombytes_calls_append (os : Sys) (fuel : Nat) :
    ∀ (l1 l2 : List Nat) (w w2 : World),
      randombytes_calls os fuel w (l1 ++ l2) = some w2 →
      ∃ w1, randombytes_calls os fuel w l1 = some w1 ∧
        randombytes_calls os fuel w1 l2 = some w2 := by
  intro l1
  induction l1 with
  | nil => intro l2 w w2 h; exact ⟨w, rfl, h⟩
  | cons xlen rest ih =>
    intro l2 w w2 h
    simp only [List.cons_append, randombytes_calls] at h ⊢
    cases hr : randombytes os fuel w xlen with
    | none => simp [hr] at h
    | some r =>
      simp only [hr] at h ⊢
      exact ih l2 r.world w2 h

/-- C15. The randomness handle is initialised lazily and exactly once. Take a series of
at least one call of `randombytes`, started with `urandom = -1`, all of which return.
The first call makes all the calls of `open` of the series: every attempt but the last
returned -1 (so each was made while `urandom` was -1), and the last one succeeded and is
the descriptor stored in `urandom`. After every further call of the series, `urandom`
holds that same descriptor and no further `open` was made; and every `read` of the series
was issued on that descriptor. -/
theorem randombytes_lazy_open (os : Sys) (fuel : Nat) (w0 w : World) (xlen : Nat)
    (rest : List Nat) (h0 : w0.urandom = -1)
    (h : randombytes_calls os fuel w0 (xlen :: rest) = some w) :
    ∃ (r : RandResult) (k : Nat), randombytes os fuel w0 xlen = some r ∧
      r.world.opens = w0.opens ++ List.replicate k (-1) ++ [r.world.urandom] ∧
      r.world.urandom ≠ -1 ∧
      (∀ l1 l2, rest = l1 ++ l2 →
        ∃ w1, randombytes_calls os fuel r.world l1 = some w1 ∧
          w1.urandom = r.world.urandom ∧ w1.opens = r.world.opens) ∧
      ∃ new : List ReadCall, w.reads = w0.reads ++ new ∧
        ∀ e ∈ new, e.fd = r.world.urandom := by
  simp only [randombytes_calls] at h
  cases hr : randombytes os fuel w0 xlen with
  | none => simp [hr] at h
  | some r =>
    simp only [hr] at h
    obtain ⟨w1, ho, hu, hop, new, hreads, hall, -⟩ := randombytes_frame os fuel w0 xlen r hr
    obtain ⟨k, hk, hne⟩ := (open_loop_spec os fuel w0 w1 ho).2 h0
    have hne2 : r.world.urandom ≠ -1 := by rw [hu]; exact hne
    refine ⟨r, k, rfl, by rw [hop, hu, hk], hne2, ?_, ?_⟩
    · intro l1 l2 hl
      subst hl
      obtain ⟨w2, h1, -⟩ := randombytes_calls_append os fuel l1 l2 r.world w h
      obtain ⟨hu2, hop2, -⟩ := randombytes_calls_frame os fuel l1 r.world w2 hne2 h1
      exact ⟨w2, h1, hu2, hop2⟩
    · obtain ⟨-, -, new2, hreads2, hfd⟩ := randombytes_calls_frame os fuel rest r.world w hne2 h
      refine ⟨new ++ new2, by rw [hreads2, hreads, List.append_assoc], ?_⟩
      intro e he
      rcases List.mem_append.mp he with he | he
      · rw [hu]
        exact (hall e he).1
      · exact hfd e he

theorem randombytes_lazy_open_witness :
    (World.init.urandom = -1 ∧
      randombytes_calls example_sys 6 World.init (5 :: [3]) = some example_world_two_calls) ∧
    ∃ (r : RandResult) (k : Nat), randombytes example_sys 6 World.init 5 = some r ∧
      r.world.opens = World.init.opens ++ List.replicate k (-1) ++ [r.world.urandom] ∧
      r.world.urandom ≠ -1 ∧
      (∀ l1 l2, [3] = l1 ++ l2 →
        ∃ w1, randombytes_calls example_sys 6 r.world l1 = some w1 ∧
          w1.urandom = r.world.urandom ∧ w1.opens = r.world.opens) ∧
      ∃ new : List ReadCall, example_world_two_calls.reads = World.init.reads ++ new ∧
        ∀ e ∈ new, e.fd = r.world.urandom :=
  have h : randombytes_calls example_sys 6 World.init (5 :: [3])
      = some example_world_two_calls := by decide
  ⟨⟨rfl, h⟩, randombytes_lazy_open example_sys 6 World.init example_world_two_calls 5 [3] rfl h⟩

/-! ## The option loop of the example programs -/

theorem to_int_of_range (v : Int) (h0 : 0 ≤ v) (h1 : v < 2 ^ 31) : to_int v = v := by
  unfold to_int
  omega

theorem to_uint8_of_range (v : Int) (h0 : 0 ≤ v) (h1 : v ≤ 2) : to_uint8 v ≤ 2 := by
  unfold to_uint8
  omega

theorem to_long_of_lt (n : Nat) (h : n < 2 ^ 63) : to_long n = (n : Int) := by
  unfold to_long
  omega

theorem example_options_range (M : Int) (hM : M ≤ 2 ^ 31) :
    ∀ (opts : List ExampleOpt) (a : Int) (fn : Nat) (a1 : Int) (fn1 : Nat),
      0 ≤ a → a < M → fn ≤ 2 →
      example_options M opts a fn = some (a1, fn1) →
      0 ≤ a1 ∧ a1 < M ∧ fn1 ≤ 2 := by
  intro opts
  induction opts with
  | nil =>
    intro a fn a1 fn1 h0 h1 h2 h
    simp only [example_options, Option.some.injEq, Prod.mk.injEq] at h
    obtain ⟨rfl, rfl⟩ := h
    exact ⟨h0, h1, h2⟩
  | cons o rest ih =>
    intro a fn a1 fn1 h0 h1 h2 h
    cases o with
    | a number =>
      simp only [example_options] at h
      split at h
      · simp at h
      · next hok =>
        have hn0 : 0 ≤ number := by omega
        have hn1 : number < M := by omega
        rw [to_int_of_range number hn0 (by omega)] at h
        exact ih _ _ _ _ hn0 hn1 h2 h
    | f number =>
      simp only [example_options] at h
      split at h
      · simp at h
      · next hok =>
        exact ih _ _ _ _ h0 h1 (to_uint8_of_range number (by omega) (by omega)) h
    | other => simp [example_options] at h

theorem example_options_bad_a (M : Int) (number : Int) (hbad : number < 0 ∨ M ≤ number) :
    ∀ (opts : List ExampleOpt) (a : Int) (fn : Nat),
      ExampleOpt.a number ∈ opts → example_options M opts a fn = none := by
  intro opts
  induction opts with
  | nil => intro a fn h; simp at h
  | cons o rest ih =>
    intro a fn h
    rcases List.mem_cons.mp h with rfl | hrest
    · simp only [example_options]
      rw [if_pos (by omega)]
    · cases o with
      | a n2 =>
        simp only [example_options]
        split
        · rfl
        · exact ih _ _ hrest
      | f n2 =>
        simp only [example_options]
        split
        · rfl
        · exact ih _ _ hrest
      | other => simp [example_options]

theorem example_options_bad_f (M : Int) (number : Int) (hbad : number < 0 ∨ 2 < number) :
    ∀ (opts : List ExampleOpt) (a : Int) (fn : Nat),
      ExampleOpt.f number ∈ opts → example_options M opts a fn = none := by
  intro opts
  induction opts with
  | nil => intro a fn h; simp at h
  | cons o rest ih =>
    intro a fn h
    rcases List.mem_cons.mp h with rfl | hrest
    · simp only [example_options]
      rw [if_pos (by omega)]
    · cases o with
      | a n2 =>
        simp only [example_options]
        split
        · rfl
        · exact ih _ _ hrest
      | f n2 =>
        simp only [example_options]
        split
        · rfl
        · exact ih _ _ hrest
      | other => simp [example_options]

theorem example_main_run_args (run : ExampleEnv → Int → Nat → RunOutcome) (env : ExampleEnv)
    (opts : List ExampleOpt) (extra : Nat)
    (hN0 : 0 < env.table.length) (hN : env.table.length < 2 ^ 31)
    (hV : env.ROUND2_VARIANT_A ≤ 2) (a : Int) (fn : Nat) (r : RunOutcome)
    (h : example_main run env opts extra = MainOutcome.example_run a fn r) :
    0 ≤ a ∧ a < (env.table.length : Int) ∧ fn ≤ 2 ∧ r = run env a fn := by
  unfold example_main at h
  rw [to_long_of_lt _ (by omega)] at h
  cases ho : example_options (env.table.length : Int) opts 0 (env.ROUND2_VARIANT_A % 256) with
  | none => simp [ho] at h
  | some p =>
    obtain ⟨a1, fn1⟩ := p
    simp only [ho] at h
    split at h
    · simp at h
    · simp only [MainOutcome.example_run.injEq] at h
      obtain ⟨rfl, rfl, rfl⟩ := h
      obtain ⟨h1, h2, h3⟩ := example_options_range (env.table.length : Int) (by omega) opts 0
        (env.ROUND2_VARIANT_A % 256) a1 fn1 (le_refl 0) (by omega) (by omega) ho
      exact ⟨h1, h2, h3, rfl⟩

theorem example_main_bad_a (run : ExampleEnv → Int → Nat → RunOutcome) (env : ExampleEnv)
    (opts : List ExampleOpt) (extra : Nat) (hN : env.table.length < 2 ^ 31) (number : Int)
    (hmem : ExampleOpt.a number ∈ opts)
    (hbad : number < 0 ∨ (env.table.length : Int) ≤ number) :
    example_main run env opts extra = MainOutcome.exit_failure := by
  unfold example_main
  rw [to_long_of_lt _ (by omega), example_options_bad_a _ number hbad opts _ _ hmem]

theorem example_main_bad_f (run : ExampleEnv → Int → Nat → RunOutcome) (env : ExampleEnv)
    (opts : List ExampleOpt) (extra : Nat) (number : Int)
    (hmem : ExampleOpt.f number ∈ opts) (hbad : number < 0 ∨ 2 < number) :
    example_main run env opts extra = MainOutcome.exit_failure := by
  unfold example_main
  rw [example_options_bad_f _ number hbad opts _ _ hmem]

theorem example_main_no_options (run : ExampleEnv → Int → Nat → RunOutcome) (env : ExampleEnv)
    (hV : env.ROUND2_VARIANT_A ≤ 2) :
    example_main run env [] 0
      = MainOutcome.example_run 0 env.ROUND2_VARIANT_A (run env 0 env.ROUND2_VARIANT_A) := by
  have hmod : env.ROUND2_VARIANT_A % 256 = env.ROUND2_VARIANT_A := by omega
  simp [example_main, example_options, hmod]

/-- C11. Option validation of the example programs. Let the table have `N` rows with
`0 < N < 2 ^ 31` and let `ROUND2_VARIANT_A` be one of 0, 1, 2. Then `main` of
`kem_example` and of `encrypt_example` calls `example_run` only with an api set number
`a`, `0 ≤ a < N`, and a variant `fn ∈ {0, 1, 2}`; an option `-a` with a value outside
`[0, N)` or an option `-f` with a value outside `[0, 2]`, anywhere among the options,
makes both programs end in `exit(EXIT_FAILURE)`; and without options (and without further
arguments) `example_run` is called with `a = 0` and `fn = ROUND2_VARIANT_A`. -/
theorem example_main_validates_options (env : ExampleEnv) (opts : List ExampleOpt)
    (extra : Nat) (hN0 : 0 < env.table.length) (hN : env.table.length < 2 ^ 31)
    (hV : env.ROUND2_VARIANT_A ≤ 2) :
    (∀ a fn r, kem_example_main env opts extra = MainOutcome.example_run a fn r →
      0 ≤ a ∧ a < (env.table.length : Int) ∧ fn ≤ 2 ∧ r = kem_example_run env a fn) ∧
    (∀ a fn r, encrypt_example_main env opts extra = MainOutcome.example_run a fn r →
      0 ≤ a ∧ a < (env.table.length : Int) ∧ fn ≤ 2 ∧ r = encrypt_example_run env a fn) ∧
    (∀ number, ExampleOpt.a number ∈ opts →
      number < 0 ∨ (env.table.length : Int) ≤ number →
      kem_example_main env opts extra = MainOutcome.exit_failure ∧
      encrypt_example_main env opts extra = MainOutcome.exit_failure) ∧
    (∀ number, ExampleOpt.f number ∈ opts → number < 0 ∨ 2 < number →
      kem_example_main env opts extra = MainOutcome.exit_failure ∧
      encrypt_example_main env opts extra = MainOutcome.exit_failure) ∧
    kem_example_main env [] 0
      = MainOutcome.example_run 0 env.ROUND2_VARIANT_A
          (kem_example_run env 0 env.ROUND2_VARIANT_A) ∧
    encrypt_example_main env [] 0
      = MainOutcome.example_run 0 env.ROUND2_VARIANT_A
          (encrypt_example_run env 0 env.ROUND2_VARIANT_A) := by
  refine ⟨?_, ?_, ?_, ?_, ?_, ?_⟩
  · intro a fn r h
    exact example_main_run_args kem_example_run env opts extra hN0 hN hV a fn r h
  · intro a fn r h
    exact example_main_run_args encrypt_example_run env opts extra hN0 hN hV a fn r h
  · intro number hmem hbad
    exact ⟨example_main_bad_a _ env opts extra hN number hmem hbad,
      example_main_bad_a _ env opts extra hN number hmem hbad⟩
  · intro number hmem hbad
    exact ⟨example_main_bad_f _ env opts extra number hmem hbad,
      example_main_bad_f _ env opts extra number hmem hbad⟩
  · exact example_main_no_options kem_example_run env hV
  · exact example_main_no_options encrypt_example_run env hV

theorem example_main_validates_options_witness :
    (0 < example_run_env.table.length ∧ example_run_env.table.length < 2 ^ 31 ∧
      example_run_env.ROUND2_VARIANT_A ≤ 2) ∧
    ((∀ a fn r,
        kem_example_main example_run_env [ExampleOpt.f 2, ExampleOpt.a 1] 0
          = MainOutcome.example_run a fn r →
        0 ≤ a ∧ a < (example_run_env.table.length : Int) ∧ fn ≤ 2 ∧
          r = kem_example_run example_run_env a fn) ∧
     (∀ a fn r,
        encrypt_example_main example_run_env [ExampleOpt.f 2, ExampleOpt.a 1] 0
          = MainOutcome.example_run a fn r →
        0 ≤ a ∧ a < (example_run_env.table.length : Int) ∧ fn ≤ 2 ∧
          r = encrypt_example_run example_run_env a fn) ∧
     (∀ number, ExampleOpt.a number ∈ [ExampleOpt.f 2, ExampleOpt.a 1] →
        number < 0 ∨ (example_run_env.table.length : Int) ≤ number →
        kem_example_main example_run_env [ExampleOpt.f 2, ExampleOpt.a 1] 0
          = MainOutcome.exit_failure ∧
        encrypt_example_main example_run_env [ExampleOpt.f 2, ExampleOpt.a 1] 0
          = MainOutcome.exit_failure) ∧
     (∀ number, ExampleOpt.f number ∈ [ExampleOpt.f 2, ExampleOpt.a 1] →
        number < 0 ∨ 2 < number →
        kem_example_main example_run_env [ExampleOpt.f 2, ExampleOpt.a 1] 0
          = MainOutcome.exit_failure ∧
        encrypt_example_main example_run_env [ExampleOpt.f 2, ExampleOpt.a 1] 0
          = MainOutcome.exit_failure) ∧
     kem_example_main example_run_env [] 0
       = MainOutcome.example_run 0 example_run_env.ROUND2_VARIANT_A
           (kem_example_run example_run_env 0 example_run_env.ROUND2_VARIANT_A) ∧
     encrypt_example_main example_run_env [] 0
       = MainOutcome.example_run 0 example_run_env.ROUND2_VARIANT_A
           (encrypt_example_run example_run_env 0 example_run_env.ROUND2_VARIANT_A)) :=
  ⟨by decide,
   example_main_validates_options example_run_env [ExampleOpt.f 2, ExampleOpt.a 1] 0
     (by decide) (by decide) (by decide)⟩

/-! ## `example_run` -/

theorem example_set_up_parameters_steps (env : ExampleEnv) (a : Int) (pre : List Step)
    (params : ExampleParams) (h : example_set_up_parameters env a = Setup.ready pre params) :
    (∀ v, Step.keypair v ∉ pre) ∧ (∀ b sz, Step.checked_malloc b sz ∉ pre) ∧
    (∀ v, Step.print Printed.CRYPTO_BYTES v ∈ pre →
      v = to_unsigned (params.ct_size + params.ss_size + 16 + 12)) ∧
    (∀ v, Step.print Printed.CRYPTO_SECRETKEYBYTES v ∈ pre →
      v = to_unsigned (params.sk_size + params.ss_size + params.pk_size)) ∧
    (a < 0 →
      Step.print Printed.CRYPTO_BYTES
          (to_unsigned (params.ct_size + params.ss_size + 16 + 12)) ∈ pre ∧
      Step.print Printed.CRYPTO_SECRETKEYBYTES
          (to_unsigned (params.sk_size + params.ss_size + params.pk_size)) ∈ pre) := by
  unfold example_set_up_parameters at h
  split at h
  · split at h
    · simp at h
    · simp only [Setup.ready.injEq] at h
      obtain ⟨rfl, rfl⟩ := h
      simp
  · next hneg =>
    split at h
    · simp at h
    · simp only [Setup.ready.injEq] at h
      obtain ⟨rfl, rfl⟩ := h
      simp [hneg]

theorem example_fixed_A_steps (fn : Nat) (params : ExampleParams) :
    (∀ v, Step.keypair v ∉ example_fixed_A fn params) ∧
    (∀ b sz, Step.checked_malloc b sz ∈ example_fixed_A fn params → b = Buffer.seed) ∧
    (∀ l v, Step.print l v ∉ example_fixed_A fn params) := by
  unfold example_fixed_A
  split <;> simp

theorem kem_example_run_keypair (env : ExampleEnv) (a : Int) (fn : Nat) (steps : List Step)
    (h : kem_example_run env a fn = RunOutcome.returned steps) :
    Step.keypair env.ROUND2_VARIANT_A ∈ steps ∧
    ∀ v, Step.keypair v ∈ steps → v = env.ROUND2_VARIANT_A := by
  unfold kem_example_run at h
  cases hs : example_set_up_parameters env a with
  | exit status st => simp [hs] at h
  | out_of_bounds => simp [hs] at h
  | ready pre params =>
    simp only [hs, RunOutcome.returned.injEq] at h
    subst h
    have h1 := (example_set_up_parameters_steps env a pre params hs).1
    have h2 := (example_fixed_A_steps fn params).1
    refine ⟨by simp, ?_⟩
    intro v hv
    simp only [List.mem_append, List.mem_cons, Step.keypair.injEq, List.mem_singleton,
      List.mem_nil_iff, or_false] at hv
    rcases hv with (hv | hv) | hv
    · exact absurd hv (h1 v)
    · exact absurd hv (h2 v)
    · simpa using hv

theorem encrypt_example_run_keypair (env : ExampleEnv) (a : Int) (fn : Nat)
    (steps : List Step) (h : encrypt_example_run env a fn = RunOutcome.returned steps) :
    Step.keypair fn ∈ steps ∧ ∀ v, Step.keypair v ∈ steps → v = fn := by
  unfold encrypt_example_run at h
  cases hs : example_set_up_parameters env a with
  | exit status st => simp [hs] at h
  | out_of_bounds => simp [hs] at h
  | ready pre params =>
    simp only [hs, RunOutcome.returned.injEq] at h
    subst h
    have h1 := (example_set_up_parameters_steps env a pre params hs).1
    have h2 := (example_fixed_A_steps fn params).1
    refine ⟨by simp, ?_⟩
    intro v hv
    simp only [List.mem_append, List.mem_cons, Step.keypair.injEq, List.mem_singleton,
      List.mem_nil_iff, or_false] at hv
    rcases hv with (hv | hv) | hv
    · exact absurd hv (h1 v)
    · exact absurd hv (h2 v)
    · simpa using hv

/-- C16, the variant that `example_run` hands to the key-pair generation. In
`encrypt_example.c` every returning call `example_run(api_set_number, fn)` calls
`crypto_encrypt_keypair_p` once, with `fn` as the variant. In `kem_example.c` every
returning call calls `crypto_kem_keypair_p` once, with `ROUND2_VARIANT_A` as the variant,
whatever `fn` is: for `fn ≠ ROUND2_VARIANT_A` the key pair is not generated with the
variant that `example_run` was given. -/
theorem example_run_keypair_variant (env : ExampleEnv) (a : Int) (fn : Nat) :
    (∀ steps, encrypt_example_run env a fn = RunOutcome.returned steps →
      Step.keypair fn ∈ steps ∧ ∀ v, Step.keypair v ∈ steps → v = fn) ∧
    (∀ steps, kem_example_run env a fn = RunOutcome.returned steps →
      Step.keypair env.ROUND2_VARIANT_A ∈ steps ∧
      (∀ v, Step.keypair v ∈ steps → v = env.ROUND2_VARIANT_A) ∧
      (fn ≠ env.ROUND2_VARIANT_A → Step.keypair fn ∉ steps)) := by
  refine ⟨fun steps h => encrypt_example_run_keypair env a fn steps h, ?_⟩
  intro steps h
  obtain ⟨h1, h2⟩ := kem_example_run_keypair env a fn steps h
  exact ⟨h1, h2, fun hne hmem => hne (h2 fn hmem)⟩

theorem example_run_keypair_variant_witness :
    (1 : Nat) ≠ example_run_env.ROUND2_VARIANT_A ∧
    kem_example_run example_run_env 0 1 = RunOutcome.returned example_kem_steps ∧
    Step.keypair example_run_env.ROUND2_VARIANT_A ∈ example_kem_steps ∧
    Step.keypair 1 ∉ example_kem_steps :=
  have h : kem_example_run example_run_env 0 1 = RunOutcome.returned example_kem_steps := by
    decide
  have hk := (example_run_keypair_variant example_run_env 0 1).2 example_kem_steps h
  ⟨by decide, h, hk.1, hk.2.2 (by decide)⟩

theorem c_prime_prime_size_eq (params : ExampleParams) (len : Nat)
    (hct : params.ct_size + params.ss_size + 16 + 12 < 2 ^ 32) (hlen : len < 2 ^ 63) :
    c_prime_prime_size params len = params.ct_size + params.ss_size + 16 + 12 + len := by
  unfold c_prime_prime_size to_size_t
  norm_num at hct hlen ⊢
  omega

/-- C13. PKE buffer sizes of the encrypt example. Let `params` be the record that the
parameter set-up of `example_run` leaves, with `ct_size + ss_size + 16 + 12` and
`sk_size + ss_size + pk_size` below `2 ^ 32`. The ciphertext size computed on line 151 for
a message of `L` bytes is `ct_size + ss_size + 16 + 12 + L`; the message of the example
has `message_len = 37` bytes; `example_run` allocates the ciphertext buffer once, with
`ct_size + ss_size + 16 + 12 + message_len` bytes, that is `ct_size + ss_size + 28 +
message_len`, and the secret-key buffer once, with `sk_size + ss_size + pk_size` bytes;
and on the API path (`api_set_number < 0`) the value printed as `CRYPTO_BYTES` is
`ct_size + ss_size + 28`, so the ciphertext buffer is that value plus `message_len`, and
the value printed as `CRYPTO_SECRETKEYBYTES` is the size of the secret-key buffer. -/
theorem encrypt_example_buffer_sizes (env : ExampleEnv) (a : Int) (fn : Nat)
    (pre : List Step) (params : ExampleParams)
    (hset : example_set_up_parameters env a = Setup.ready pre params)
    (hct : params.ct_size + params.ss_size + 16 + 12 < 2 ^ 32)
    (hsk : params.sk_size + params.ss_size + params.pk_size < 2 ^ 32) :
    message_len = 37 ∧
    (∀ L, L < 2 ^ 63 →
      c_prime_prime_size params L = params.ct_size + params.ss_size + 16 + 12 + L) ∧
    ∃ steps, encrypt_example_run env a fn = RunOutcome.returned steps ∧
      Step.checked_malloc Buffer.c_prime_prime
          (params.ct_size + params.ss_size + 16 + 12 + message_len) ∈ steps ∧
      (∀ sz, Step.checked_malloc Buffer.c_prime_prime sz ∈ steps →
        sz = params.ct_size + params.ss_size + 28 + message_len) ∧
      Step.checked_malloc Buffer.sk
          (params.sk_size + params.ss_size + params.pk_size) ∈ steps ∧
      (∀ sz, Step.checked_malloc Buffer.sk sz ∈ steps →
        sz = params.sk_size + params.ss_size + params.pk_size) ∧
      (∀ v, Step.print Printed.CRYPTO_BYTES v ∈ steps →
        v = params.ct_size + params.ss_size + 28) ∧
      (∀ v, Step.print Printed.CRYPTO_SECRETKEYBYTES v ∈ steps →
        v = params.sk_size + params.ss_size + params.pk_size) ∧
      (a < 0 →
        Step.print Printed.CRYPTO_BYTES (params.ct_size + params.ss_size + 28) ∈ steps ∧
        Step.print Printed.CRYPTO_SECRETKEYBYTES
          (params.sk_size + params.ss_size + params.pk_size) ∈ steps) := by
  have hlen : message_len = 37 := by decide
  have hcpp := c_prime_prime_size_eq params message_len hct (by rw [hlen]; norm_num)
  have hskb : sk_buffer_size params
      = params.sk_size + params.ss_size + params.pk_size := by
    unfold sk_buffer_size to_size_t
    norm_num at hsk ⊢
    omega
  have hu1 : to_unsigned (params.ct_size + params.ss_size + 16 + 12)
      = params.ct_size + params.ss_size + 28 := by
    unfold to_unsigned
    norm_num at hct ⊢
    omega
  have hu2 : to_unsigned (params.sk_size + params.ss_size + params.pk_size)
      = params.sk_size + params.ss_size + params.pk_size := by
    unfold to_unsigned
    norm_num at hsk ⊢
    omega
  obtain ⟨-, hpm, hpb, hps, hapi⟩ := example_set_up_parameters_steps env a pre params hset
  obtain ⟨-, hfm, hfp⟩ := example_fixed_A_steps fn params
  rw [hu1] at hpb hapi
  rw [hu2] at hps hapi
  refine ⟨hlen, fun L hL => c_prime_prime_size_eq params L hct hL, ?_⟩
  refine ⟨_, by rw [encrypt_example_run, hset], ?_, ?_, ?_, ?_, ?_, ?_, ?_⟩
  · simp [hcpp]
  · intro sz hmem
    simp only [List.mem_append, List.mem_cons, Step.checked_malloc.injEq, List.mem_singleton,
      List.mem_nil_iff, or_false] at hmem
    rcases hmem with (hmem | hmem) | hmem
    · exact absurd hmem (hpm _ _)
    · have := hfm _ _ hmem
      simp at this
    · simp only [reduceCtorEq, false_and, false_or, true_and, and_false, or_false] at hmem
      omega
  · simp [hskb]
  · intro sz hmem
    simp only [List.mem_append, List.mem_cons, Step.checked_malloc.injEq, List.mem_singleton,
      List.mem_nil_iff, or_false] at hmem
    rcases hmem with (hmem | hmem) | hmem
    · exact absurd hmem (hpm _ _)
    · have := hfm _ _ hmem
      simp at this
    · simp only [reduceCtorEq, false_and, false_or, true_and, and_false, or_false] at hmem
      omega
  · intro v hmem
    simp only [List.mem_append, List.mem_cons, List.mem_singleton, List.mem_nil_iff,
      reduceCtorEq, or_false] at hmem
    rcases hmem with hmem | hmem
    · exact hpb v hmem
    · exact absurd hmem (hfp _ _)
  · intro v hmem
    simp only [List.mem_append, List.mem_cons, List.mem_singleton, List.mem_nil_iff,
      reduceCtorEq, or_false] at hmem
    rcases hmem with hmem | hmem
    · exact hps v hmem
    · exact absurd hmem (hfp _ _)
  · intro ha
    obtain ⟨h1, h2⟩ := hapi ha
    exact ⟨by simp [h1], by simp [h2]⟩

theorem encrypt_example_buffer_sizes_witness :
    (example_set_up_parameters example_run_env (-1)
        = Setup.ready example_api_steps example_api_params ∧
      example_api_params.ct_size + example_api_params.ss_size + 16 + 12 < 2 ^ 32 ∧
      example_api_params.sk_size + example_api_params.ss_size + example_api_params.pk_size
        < 2 ^ 32) ∧
    (message_len = 37 ∧
     (∀ L, L < 2 ^ 63 →
       c_prime_prime_size example_api_params L
         = example_api_params.ct_size + example_api_params.ss_size + 16 + 12 + L) ∧
     ∃ steps, encrypt_example_run example_run_env (-1) 0 = RunOutcome.returned steps ∧
       Step.checked_malloc Buffer.c_prime_prime
           (example_api_params.ct_size + example_api_params.ss_size + 16 + 12 + message_len)
         ∈ steps ∧
       (∀ sz, Step.checked_malloc Buffer.c_prime_prime sz ∈ steps →
         sz = example_api_params.ct_size + example_api_params.ss_size + 28 + message_len) ∧
       Step.checked_malloc Buffer.sk
           (example_api_params.sk_size + example_api_params.ss_size
             + example_api_params.pk_size) ∈ steps ∧
       (∀ sz, Step.checked_malloc Buffer.sk sz ∈ steps →
         sz = example_api_params.sk_size + example_api_params.ss_size
               + example_api_params.pk_size) ∧
       (∀ v, Step.print Printed.CRYPTO_BYTES v ∈ steps →
         v = example_api_params.ct_size + example_api_params.ss_size + 28) ∧
       (∀ v, Step.print Printed.CRYPTO_SECRETKEYBYTES v ∈ steps →
         v = example_api_params.sk_size + example_api_params.ss_size
               + example_api_params.pk_size) ∧
       ((-1 : Int) < 0 →
         Step.print Printed.CRYPTO_BYTES
             (example_api_params.ct_size + example_api_params.ss_size + 28) ∈ steps ∧
         Step.print Printed.CRYPTO_SECRETKEYBYTES
             (example_api_params.sk_size + example_api_params.ss_size
               + example_api_params.pk_size) ∈ steps)) :=
  have h : example_set_up_parameters example_run_env (-1)
      = Setup.ready example_api_steps example_api_params := by decide
  ⟨⟨h, by decide, by decide⟩,
   encrypt_example_buffer_sizes example_run_env (-1) 0 example_api_steps example_api_params h
     (by decide) (by decide)⟩

/-! ## Parameter errors -/

theorem example_run_ignores_set_parameters_error :
    (example_error_env.set_parameters
        (set_parameters_args (ParamRow.mk 16 2 1 1 3 1 1 1 1 1))).1 ≠ 0 ∧
    example_error_env.table[(0 : Int).toNat]? = some (ParamRow.mk 16 2 1 1 3 1 1 1 1 1) ∧
    kem_example_run example_error_env 0 0 = RunOutcome.returned example_error_steps ∧
    Step.checked_malloc Buffer.sk 100 ∈ example_error_steps ∧
    Step.keypair 0 ∈ example_error_steps ∧
    Step.enc ∈ example_error_steps ∧ Step.dec ∈ example_error_steps := by
  decide

theorem example_set_up_parameters_error (env : ExampleEnv) (a : Int) (ha : a < 0)
    (herr : env.set_parameters_from_api.1 ≠ 0) :
    example_set_up_parameters env a = Setup.exit 1 [Step.set_parameters_from_api] := by
  unfold example_set_up_parameters
  rw [if_pos ha, if_pos herr]

/-- C14, as the code has it. Whenever `set_parameters_from_api` reports an error (a
non-zero status): `example_run` of `kem_example` and of `encrypt_example`, which call it
for a negative `api_set_number`, end in `exit(1)` with no step made but that call; and
`main` of the speed test ends in `exit(EXIT_FAILURE)`, a non-zero status, with no test
function run: straight after the call when the options are accepted, and before the call
otherwise. No buffer is allocated and no key-pair generation, encapsulation, encryption,
decapsulation or decryption is made before these exits. -/
theorem parameter_error_exits (env : ExampleEnv) (senv : SpeedEnv) (a : Int) (fn : Nat)
    (opts : List SpeedOpt) (extra : Nat) (ha : a < 0)
    (herr : env.set_parameters_from_api.1 ≠ 0)
    (hserr : senv.set_parameters_from_api ≠ 0) :
    kem_example_run env a fn = RunOutcome.exit 1 [Step.set_parameters_from_api] ∧
    encrypt_example_run env a fn = RunOutcome.exit 1 [Step.set_parameters_from_api] ∧
    (1 : Int) ≠ 0 ∧ EXIT_FAILURE ≠ 0 ∧
    (speedtest_main senv opts extra = SpeedOutcome.exit_failure [] ∨
      speedtest_main senv opts extra
        = SpeedOutcome.exit_failure [SpeedStep.set_parameters_from_api]) ∧
    (∀ r, speedtest_options opts 100 = some r → extra = 0 →
      speedtest_main senv opts extra
        = SpeedOutcome.exit_failure [SpeedStep.set_parameters_from_api]) := by
  have hs := example_set_up_parameters_error env a ha herr
  refine ⟨by rw [kem_example_run, hs], by rw [encrypt_example_run, hs], by decide,
    by decide, ?_, ?_⟩
  · unfold speedtest_main
    cases ho : speedtest_options opts 100 with
    | none => left; rfl
    | some r =>
      simp only
      split
      · left; rfl
      · right; rfl
  · intro r ho hextra
    unfold speedtest_main
    simp only [ho, hextra]
    rw [if_neg (by decide), if_pos hserr]

theorem parameter_error_exits_witness :
    ((-1 : Int) < 0 ∧ example_error_env.set_parameters_from_api.1 ≠ 0 ∧
      ({ example_speed_env with set_parameters_from_api := 1 } : SpeedEnv).set_parameters_from_api
        ≠ 0) ∧
    (kem_example_run example_error_env (-1) 2
        = RunOutcome.exit 1 [Step.set_parameters_from_api] ∧
     encrypt_example_run example_error_env (-1) 2
        = RunOutcome.exit 1 [Step.set_parameters_from_api] ∧
     (1 : Int) ≠ 0 ∧ EXIT_FAILURE ≠ 0 ∧
     (speedtest_main { example_speed_env with set_parameters_from_api := 1 } [SpeedOpt.r 3] 0
          = SpeedOutcome.exit_failure [] ∨
       speedtest_main { example_speed_env with set_parameters_from_api := 1 } [SpeedOpt.r 3] 0
          = SpeedOutcome.exit_failure [SpeedStep.set_parameters_from_api]) ∧
     (∀ r, speedtest_options [SpeedOpt.r 3] 100 = some r → (0 : Nat) = 0 →
       speedtest_main { example_speed_env with set_parameters_from_api := 1 } [SpeedOpt.r 3] 0
          = SpeedOutcome.exit_failure [SpeedStep.set_parameters_from_api])) :=
  ⟨by decide,
   parameter_error_exits example_error_env
     { example_speed_env with set_parameters_from_api := 1 } (-1) 2 [SpeedOpt.r 3] 0
     (by decide) (by decide) (by decide)⟩

/-! ## The speed test -/

theorem foldl_count_failed (p : Nat → Bool) :
    ∀ n, n < 2 ^ 32 →
      (List.range n).foldl
          (fun nr_failed i => if p i then (nr_failed + 1) % 2 ^ 32 else nr_failed) 0
        = Nat.count (fun i => p i = true) n := by
  intro n
  induction n with
  | zero => intro _; simp
  | succ n ih =>
    intro hn
    rw [List.range_succ, List.foldl_append, ih (by omega), Nat.count_succ]
    have hle : Nat.count (fun i => p i = true) n ≤ n := Nat.count_le _
    simp only [List.foldl_cons, List.foldl_nil]
    split
    · rw [Nat.mod_eq_of_lt (by omega)]
    · rfl

theorem count_ne_zero_iff (p : Nat → Bool) (n : Nat) :
    Nat.count (fun i => p i = true) n ≠ 0 ↔ ∃ i, i < n ∧ p i = true := by
  rw [ne_eq, Nat.count_iff_forall_not]
  constructor
  · intro h
    by_contra hcon
    exact h (fun m hm hp => hcon ⟨m, hm, hp⟩)
  · rintro ⟨i, hi, hp⟩ h
    exact h i hi hp

theorem kem_repeat_failed_iff (rep : KemRepeat) :
    kem_repeat_failed rep = true
      ↔ rep.ss_r.take CRYPTO_BYTES ≠ rep.ss_i.take CRYPTO_BYTES := by
  simp [kem_repeat_failed, memcmp_differs]

theorem encrypt_repeat_failed_iff (rep : EncryptRepeat) :
    encrypt_repeat_failed rep = true
      ↔ (rep.mlen ≠ message_len ∨ rep.m.take message_len ≠ message_bytes) := by
  have hm : message_bytes.take message_len = message_bytes := by decide
  simp only [encrypt_repeat_failed, memcmp_differs, hm, Bool.or_eq_true, decide_eq_true_eq]
  constructor
  · rintro (h | h)
    · exact Or.inl (fun e => h e.symm)
    · exact Or.inr (fun e => h e.symm)
  · rintro (h | h)
    · exact Or.inl (fun e => h e.symm)
    · exact Or.inr (fun e => h e.symm)

theorem test_result_ret (p : Nat → Bool) (n : Nat) (hn : n < 2 ^ 32) :
    ((if (List.range n).foldl
            (fun nr_failed i => if p i then (nr_failed + 1) % 2 ^ 32 else nr_failed) 0 ≠ 0
        then 1 else 0 : Nat) = 1 ↔ ∃ i, i < n ∧ p i = true) ∧
    ((if (List.range n).foldl
            (fun nr_failed i => if p i then (nr_failed + 1) % 2 ^ 32 else nr_failed) 0 ≠ 0
        then 1 else 0 : Nat) = 0 ↔ ¬ ∃ i, i < n ∧ p i = true) := by
  rw [foldl_count_failed p n hn, ← count_ne_zero_iff]
  by_cases h : Nat.count (fun i => p i = true) n = 0
  · simp [h]
  · simp [h]

theorem speedtest_kem_spec (kem : Nat → KemRepeat) (r : Nat) (hr : r < 2 ^ 32) :
    (speedtest_kem kem r).nr_failed
        = Nat.count (fun i => kem_repeat_failed (kem i) = true) r ∧
    ((speedtest_kem kem r).ret = 1 ↔ ∃ i, i < r ∧ kem_repeat_failed (kem i) = true) ∧
    ((speedtest_kem kem r).ret = 0 ↔ ¬ ∃ i, i < r ∧ kem_repeat_failed (kem i) = true) :=
  ⟨foldl_count_failed (fun i => kem_repeat_failed (kem i)) r hr,
   test_result_ret (fun i => kem_repeat_failed (kem i)) r hr⟩

theorem speedtest_encrypt_spec (enc : Nat → EncryptRepeat) (r : Nat) (hr : r < 2 ^ 32) :
    (speedtest_encrypt enc r).nr_failed
        = Nat.count (fun i => encrypt_repeat_failed (enc i) = true) r ∧
    ((speedtest_encrypt enc r).ret = 1 ↔
      ∃ i, i < r ∧ encrypt_repeat_failed (enc i) = true) ∧
    ((speedtest_encrypt enc r).ret = 0 ↔
      ¬ ∃ i, i < r ∧ encrypt_repeat_failed (enc i) = true) :=
  ⟨foldl_count_failed (fun i => encrypt_repeat_failed (enc i)) r hr,
   test_result_ret (fun i => encrypt_repeat_failed (enc i)) r hr⟩

/-- C12. Result of the round-trip tests, for a number of repeats `r < 2 ^ 32` (an
`unsigned int`). In `speedtest_kem(r)` the counter `nr_failed` ends as the number of
repeats `i < r` in which `ss_i` differs from `ss_r` within the first `CRYPTO_BYTES`
bytes, and the function returns 1 if and only if there is such a repeat, and 0 if and
only if there is none. In `speedtest_encrypt(r)` the counter ends as the number of repeats
in which `mlen` differs from `message_len` or the first `message_len` bytes of `m`
differ from the message, and the function returns 1 if and only if there is such a
repeat, and 0 if and only if there is none. -/
theorem speedtest_result (kem : Nat → KemRepeat) (enc : Nat → EncryptRepeat) (r : Nat)
    (hr : r < 2 ^ 32) :
    ((speedtest_kem kem r).nr_failed
        = Nat.count (fun i => (kem i).ss_r.take CRYPTO_BYTES
            ≠ (kem i).ss_i.take CRYPTO_BYTES) r ∧
      ((speedtest_kem kem r).ret = 1 ↔
        ∃ i, i < r ∧ (kem i).ss_r.take CRYPTO_BYTES ≠ (kem i).ss_i.take CRYPTO_BYTES) ∧
      ((speedtest_kem kem r).ret = 0 ↔
        ¬ ∃ i, i < r ∧ (kem i).ss_r.take CRYPTO_BYTES ≠ (kem i).ss_i.take CRYPTO_BYTES)) ∧
    ((speedtest_encrypt enc r).nr_failed
        = Nat.count (fun i => (enc i).mlen ≠ message_len
            ∨ (enc i).m.take message_len ≠ message_bytes) r ∧
      ((speedtest_encrypt enc r).ret = 1 ↔
        ∃ i, i < r ∧ ((enc i).mlen ≠ message_len
          ∨ (enc i).m.take message_len ≠ message_bytes)) ∧
      ((speedtest_encrypt enc r).ret = 0 ↔
        ¬ ∃ i, i < r ∧ ((enc i).mlen ≠ message_len
          ∨ (enc i).m.take message_len ≠ message_bytes))) := by
  obtain ⟨hkn, hk1, hk0⟩ := speedtest_kem_spec kem r hr
  obtain ⟨hen, he1, he0⟩ := speedtest_encrypt_spec enc r hr
  simp only [kem_repeat_failed_iff] at hk1 hk0
  simp only [encrypt_repeat_failed_iff] at he1 he0
  refine ⟨⟨?_, hk1, hk0⟩, ⟨?_, he1, he0⟩⟩
  · rw [hkn]
    exact count_congr_iff _ _ (fun i => kem_repeat_failed_iff (kem i)) r
  · rw [hen]
    exact count_congr_iff _ _ (fun i => encrypt_repeat_failed_iff (enc i)) r

theorem speedtest_result_witness :
    (3 : Nat) < 2 ^ 32 ∧
    (((speedtest_kem example_speed_env.kem 3).nr_failed
        = Nat.count (fun i => (example_speed_env.kem i).ss_r.take CRYPTO_BYTES
            ≠ (example_speed_env.kem i).ss_i.take CRYPTO_BYTES) 3 ∧
      ((speedtest_kem example_speed_env.kem 3).ret = 1 ↔
        ∃ i, i < 3 ∧ (example_speed_env.kem i).ss_r.take CRYPTO_BYTES
          ≠ (example_speed_env.kem i).ss_i.take CRYPTO_BYTES) ∧
      ((speedtest_kem example_speed_env.kem 3).ret = 0 ↔
        ¬ ∃ i, i < 3 ∧ (example_speed_env.kem i).ss_r.take CRYPTO_BYTES
          ≠ (example_speed_env.kem i).ss_i.take CRYPTO_BYTES)) ∧
     ((speedtest_encrypt example_speed_env.encrypt 3).nr_failed
        = Nat.count (fun i => (example_speed_env.encrypt i).mlen ≠ message_len
            ∨ (example_speed_env.encrypt i).m.take message_len ≠ message_bytes) 3 ∧
      ((speedtest_encrypt example_speed_env.encrypt 3).ret = 1 ↔
        ∃ i, i < 3 ∧ ((example_speed_env.encrypt i).mlen ≠ message_len
          ∨ (example_speed_env.encrypt i).m.take message_len ≠ message_bytes)) ∧
      ((speedtest_encrypt example_speed_env.encrypt 3).ret = 0 ↔
        ¬ ∃ i, i < 3 ∧ ((example_speed_env.encrypt i).mlen ≠ message_len
          ∨ (example_speed_env.encrypt i).m.take message_len ≠ message_bytes)))) :=
  ⟨by decide,
   speedtest_result example_speed_env.kem example_speed_env.encrypt 3 (by decide)⟩

theorem test_ret_le_one (p : Nat → Bool) (n : Nat) :
    (if (List.range n).foldl
          (fun nr_failed i => if p i then (nr_failed + 1) % 2 ^ 32 else nr_failed) 0 ≠ 0
      then 1 else 0 : Nat) ≤ 1 := by
  split <;> omega

theorem speedtest_kem_ret_mod (kem : Nat → KemRepeat) (r : Nat) :
    (0 + (speedtest_kem kem r).ret) % 2 ^ 32 = (speedtest_kem kem r).ret := by
  have hle : (speedtest_kem kem r).ret ≤ 1 :=
    test_ret_le_one (fun i => kem_repeat_failed (kem i)) r
  rw [Nat.zero_add]
  exact Nat.mod_eq_of_lt (by omega)

theorem speedtest_main_eq (env : SpeedEnv) (opts : List SpeedOpt) (extra : Nat) :
    speedtest_main env opts extra =
      match speedtest_options opts 100 with
      | none => SpeedOutcome.exit_failure []
      | some r =>
        if extra > 0 then SpeedOutcome.exit_failure []
        else if env.set_parameters_from_api ≠ 0 then
          SpeedOutcome.exit_failure [SpeedStep.set_parameters_from_api]
        else
          SpeedOutcome.returned
            (if (speedtest_kem env.kem r).ret = 0 then EXIT_SUCCESS else EXIT_FAILURE)
            [SpeedStep.set_parameters_from_api, SpeedStep.speedtest_kem r] := by
  unfold speedtest_main
  cases ho : speedtest_options opts 100 with
  | none => rfl
  | some r =>
    simp only
    have hc : CRYPTO_CIPHERTEXTBYTES ≠ 0 := by decide
    rw [if_pos hc, speedtest_kem_ret_mod]
    by_cases h0 : (speedtest_kem env.kem r).ret = 0
    · simp [h0]
    · simp [h0]

/-- C18. `main` of the speed test selects the test from `CRYPTO_CIPHERTEXTBYTES`, which
the shipped `api.h` sets to 10904, not zero. The option loop starts with 100 repeats and
an option `-r n` with `n > 0` sets them to `n`. Whenever the options are accepted, no
argument is left over and `set_parameters_from_api` reports success, `main` calls
`speedtest_kem` once with that number of repeats, never `speedtest_encrypt`, and returns
`EXIT_SUCCESS` if that call returned 0 and `EXIT_FAILURE` otherwise. In every other case
`main` ends in `exit(EXIT_FAILURE)` and runs no test function. Conversely a run that
returns has run `speedtest_kem` once and nothing else, and its status is `EXIT_SUCCESS`
if and only if `speedtest_kem` returned 0, `EXIT_FAILURE` if and only if it did not. -/
theorem speedtest_main_runs_kem (env : SpeedEnv) (opts : List SpeedOpt) (extra : Nat) :
    CRYPTO_CIPHERTEXTBYTES = 10904 ∧
    speedtest_options [] 100 = some 100 ∧
    (∀ n : Int, 0 < n → speedtest_options [SpeedOpt.r n] 100 = some (to_unsigned_int n)) ∧
    (∀ r, speedtest_options opts 100 = some r → extra = 0 →
      env.set_parameters_from_api = 0 →
      speedtest_main env opts extra
        = SpeedOutcome.returned
            (if (speedtest_kem env.kem r).ret = 0 then EXIT_SUCCESS else EXIT_FAILURE)
            [SpeedStep.set_parameters_from_api, SpeedStep.speedtest_kem r]) ∧
    (speedtest_options opts 100 = none ∨ 0 < extra →
      speedtest_main env opts extra = SpeedOutcome.exit_failure []) ∧
    (∀ r, speedtest_options opts 100 = some r → extra = 0 →
      env.set_parameters_from_api ≠ 0 →
      speedtest_main env opts extra
        = SpeedOutcome.exit_failure [SpeedStep.set_parameters_from_api]) ∧
    (∀ steps, speedtest_main env opts extra = SpeedOutcome.exit_failure steps →
      ∀ r, SpeedStep.speedtest_kem r ∉ steps ∧ SpeedStep.speedtest_encrypt r ∉ steps) ∧
    (∀ status steps, speedtest_main env opts extra = SpeedOutcome.returned status steps →
      ∃ r, speedtest_options opts 100 = some r ∧
        steps = [SpeedStep.set_parameters_from_api, SpeedStep.speedtest_kem r] ∧
        (∀ r1, SpeedStep.speedtest_encrypt r1 ∉ steps) ∧
        (status = EXIT_SUCCESS ↔ (speedtest_kem env.kem r).ret = 0) ∧
        (status = EXIT_FAILURE ↔ (speedtest_kem env.kem r).ret ≠ 0)) := by
  have hmain := speedtest_main_eq env opts extra
  refine ⟨rfl, rfl, ?_, ?_, ?_, ?_, ?_, ?_⟩
  · intro n hn
    simp only [speedtest_options]
    rw [if_neg (by omega)]
  · intro r ho hextra hst
    rw [hmain, ho]
    simp only [hextra, hst]
    simp
  · intro h
    rw [hmain]
    cases ho : speedtest_options opts 100 with
    | none => rfl
    | some r =>
      rcases h with h | h
      · rw [ho] at h; simp at h
      · simp only
        rw [if_pos h]
  · intro r ho hextra hst
    rw [hmain, ho]
    simp only [hextra]
    simp [hst]
  · intro steps h r
    rw [hmain] at h
    cases ho : speedtest_options opts 100 with
    | none =>
      simp only [ho, SpeedOutcome.exit_failure.injEq] at h
      subst h
      simp
    | some r0 =>
      simp only [ho] at h
      split at h
      · simp only [SpeedOutcome.exit_failure.injEq] at h
        subst h
        simp
      · split at h
        · simp only [SpeedOutcome.exit_failure.injEq] at h
          subst h
          simp
        · simp at h
  · intro status steps h
    rw [hmain] at h
    cases ho : speedtest_options opts 100 with
    | none => simp [ho] at h
    | some r0 =>
      simp only [ho] at h
      split at h
      · simp at h
      · split at h
        · simp at h
        · simp only [SpeedOutcome.returned.injEq] at h
          obtain ⟨hst, hsteps⟩ := h
          refine ⟨r0, rfl, hsteps.symm, ?_, ?_, ?_⟩
          · intro r1
            rw [← hsteps]
            simp
          · rw [← hst]
            unfold EXIT_SUCCESS EXIT_FAILURE
            split <;> simp_all
          · rw [← hst]
            unfold EXIT_SUCCESS EXIT_FAILURE
            split <;> simp_all

theorem speedtest_main_runs_kem_witness :
    (speedtest_options [SpeedOpt.r 3] 100 = some 3 ∧ (0 : Nat) = 0 ∧
      example_speed_env.set_parameters_from_api = 0) ∧
    speedtest_main example_speed_env [SpeedOpt.r 3] 0
      = SpeedOutcome.returned
          (if (speedtest_kem example_speed_env.kem 3).ret = 0 then EXIT_SUCCESS
            else EXIT_FAILURE)
          [SpeedStep.set_parameters_from_api, SpeedStep.speedtest_kem 3] ∧
    (speedtest_kem example_speed_env.kem 3).ret = 1 ∧
    speedtest_main example_speed_env [SpeedOpt.r 3] 0
      = SpeedOutcome.returned EXIT_FAILURE
          [SpeedStep.set_parameters_from_api, SpeedStep.speedtest_kem 3] ∧
    speedtest_main example_speed_env [SpeedOpt.r 1] 0
      = SpeedOutcome.returned EXIT_SUCCESS
          [SpeedStep.set_parameters_from_api, SpeedStep.speedtest_kem 1] :=
  ⟨by decide,
   (speedtest_main_runs_kem example_speed_env [SpeedOpt.r 3] 0).2.2.2.1 3
     (by decide) rfl (by decide),
   by decide, by decide, by decide⟩

end Round2
